import Mathlib

/-!
Verification of the time-series cleansing/resampling engine of this repository
(`scripts/3_cleansing/cleansing_resample.py`).

Modelling conventions for the shallow embedding:
* Python `int` epochs are `Int`; Python floor division `//` is `Int.fdiv`.
* Python `float` prices/ages are modelled by `ℚ` (the arithmetic performed by the
  engine is +, -, *, /, min and comparisons on values derived from integers).
* SQLite rows become Lean structures; a streamed tick carries an optional parsed
  epoch (`CAST(strftime(...) AS INTEGER)` can be NULL, and `process_pair` skips
  such rows).
* The SQLite boolean columns `is_stale` / `is_missing` are stored by the script
  as the integers 1/0, so they are `Nat` here.
* The two `while` loops of `process_pair` are embedded as fuel-indexed
  recursions whose guard is the loop condition; `process_pair` supplies enough
  fuel for the loops to run to completion whenever `bin_seconds ≥ 1` (the
  configuration validated by `main`).
* Constant per-run columns of an output row (run_id, exchange_id, symbol,
  bin_seconds, max_forward_fill_s, fill_method_mode, bucket_start_utc — the
  latter a pure ISO rendering of `bucket_epoch_s`) are omitted from `BinRow`;
  every varying column is kept.
-/

namespace CDWH

/-- One raw tick as streamed by `process_pair`'s query: the row's
`ingestion_ts_utc` text, the parsed epoch `CAST(strftime('%s', …) AS INTEGER)`
(None when unparseable), and `COALESCE(price, last)`. The list order of a tick
stream is the query's `ORDER BY ingestion_ts_utc, id`. -/
structure Tick where
  ingestion_ts_utc : String
  ts_epoch_s : Option Int
  effective_price : ℚ
deriving DecidableEq

/-- A tick whose timestamp parsed (the only ones `process_pair` consumes). -/
structure PTick where
  ingestion_ts_utc : String
  ts_epoch_s : Int
  effective_price : ℚ
deriving DecidableEq

/-- Source `PairProfile` dataclass. -/
structure PairProfile where
  exchange_id : String
  symbol : String
  min_epoch_s : Int
  max_epoch_s : Int
  source_tick_count : Nat
deriving DecidableEq

/-- Source `PairSummary` dataclass. -/
structure PairSummary where
  exchange_id : String
  symbol : String
  source_tick_count : Nat
  bins_total : Nat
  bins_observed : Nat
  bins_forward_fill : Nat
  bins_interpolation : Nat
  bins_missing : Nat
deriving DecidableEq

/-- The engine configuration that `process_pair` receives. -/
structure Config where
  bin_seconds : Int
  max_forward_fill_s : Int
  stale_after_s : Int
  fill_method_mode : String
deriving DecidableEq

/-- Source `floor_epoch(epoch_s, bin_seconds) = (epoch_s // bin_seconds) * bin_seconds`;
Python `//` is floor division, i.e. `Int.fdiv`. -/
def floor_epoch (epoch_s bin_seconds : Int) : Int :=
  (Int.fdiv epoch_s bin_seconds) * bin_seconds

/-- The varying columns of one `cleansed_market` output row. -/
structure BinRow where
  bucket_epoch_s : Int
  price : Option ℚ
  source_ingestion_ts_utc : Option String
  source_ingestion_epoch_s : Option Int
  tick_count_in_bin : Nat
  fill_method : String
  age_seconds : Option ℚ
  is_stale : Nat
  is_missing : Nat
deriving DecidableEq

/-- The mutable state of `process_pair`'s sweep (local variables of the Python
function), together with the rows emitted so far.  Batching via
`_emit_if_needed` only groups rows for insertion and never changes their
content or order, so `rows` accumulates every emitted row directly. -/
structure PairState where
  current_bin_epoch_s : Int
  current_bin_tick_count : Nat
  current_bin_last_price : Option ℚ
  current_bin_last_ts_utc : Option String
  current_bin_last_ts_epoch_s : Option Int
  last_known_price : Option ℚ
  last_known_ts_utc : Option String
  last_known_ts_epoch_s : Option Int
  rows : List BinRow
  bins_total : Nat
  bins_observed : Nat
  bins_forward_fill : Nat
  bins_interpolation : Nat
  bins_missing : Nat
deriving DecidableEq

/-- Source `_finalize_current_bin(next_tick_epoch_s, next_tick_price)`: emit one row
for the current bucket and reset the per-bucket accumulator.  The `if/elif/else`
chain of the source is mirrored by the nested matches: observed when the bucket
saw a tick, otherwise forward-fill/interpolation/missing from `last_known_*`. -/
def finalize_current_bin (cfg : Config) (st : PairState)
    (next_tick_epoch_s : Option Int) (next_tick_price : Option ℚ) : PairState :=
  match st.current_bin_tick_count, st.current_bin_last_price, st.current_bin_last_ts_epoch_s with
  | Nat.succ _, some lastPrice, some lastEpoch =>
      { st with
        rows := st.rows ++ [{
          bucket_epoch_s := st.current_bin_epoch_s,
          price := some lastPrice,
          source_ingestion_ts_utc := st.current_bin_last_ts_utc,
          source_ingestion_epoch_s := some lastEpoch,
          tick_count_in_bin := st.current_bin_tick_count,
          fill_method := "observed",
          age_seconds := some 0,
          is_stale := 0,
          is_missing := 0 }],
        bins_total := st.bins_total + 1,
        bins_observed := st.bins_observed + 1,
        last_known_price := st.current_bin_last_price,
        last_known_ts_utc := st.current_bin_last_ts_utc,
        last_known_ts_epoch_s := st.current_bin_last_ts_epoch_s,
        current_bin_tick_count := 0,
        current_bin_last_price := none,
        current_bin_last_ts_utc := none,
        current_bin_last_ts_epoch_s := none }
  | _, _, _ =>
    match st.last_known_price, st.last_known_ts_epoch_s with
    | some lkPrice, some lkEpoch =>
      let candidate_age : ℚ := ((st.current_bin_epoch_s - lkEpoch : Int) : ℚ)
      match next_tick_epoch_s, next_tick_price with
      | some ntEpoch, some ntPrice =>
        if cfg.fill_method_mode = "interpolation" ∧
            candidate_age ≤ (cfg.max_forward_fill_s : ℚ) ∧
            st.current_bin_epoch_s < ntEpoch ∧
            lkEpoch < ntEpoch ∧
            ((ntEpoch - st.current_bin_epoch_s : Int) : ℚ) ≤ (cfg.max_forward_fill_s : ℚ) then
          let interpolation_span_s : ℚ := ((ntEpoch - lkEpoch : Int) : ℚ)
          let ratio : ℚ := ((st.current_bin_epoch_s - lkEpoch : Int) : ℚ) / interpolation_span_s
          let interpolated_price : ℚ := lkPrice + (ntPrice - lkPrice) * ratio
          let prev_age : ℚ := ((st.current_bin_epoch_s - lkEpoch : Int) : ℚ)
          let next_age : ℚ := ((ntEpoch - st.current_bin_epoch_s : Int) : ℚ)
          let nearest_age : ℚ := min prev_age next_age
          { st with
            rows := st.rows ++ [{
              bucket_epoch_s := st.current_bin_epoch_s,
              price := some interpolated_price,
              source_ingestion_ts_utc := none,
              source_ingestion_epoch_s := none,
              tick_count_in_bin := st.current_bin_tick_count,
              fill_method := "interpolation",
              age_seconds := some nearest_age,
              is_stale := if (cfg.stale_after_s : ℚ) < nearest_age then 1 else 0,
              is_missing := 0 }],
            bins_total := st.bins_total + 1,
            bins_interpolation := st.bins_interpolation + 1,
            current_bin_tick_count := 0,
            current_bin_last_price := none,
            current_bin_last_ts_utc := none,
            current_bin_last_ts_epoch_s := none }
        else if candidate_age ≤ (cfg.max_forward_fill_s : ℚ) then
          { st with
            rows := st.rows ++ [{
              bucket_epoch_s := st.current_bin_epoch_s,
              price := some lkPrice,
              source_ingestion_ts_utc := st.last_known_ts_utc,
              source_ingestion_epoch_s := some lkEpoch,
              tick_count_in_bin := st.current_bin_tick_count,
              fill_method := "forward_fill",
              age_seconds := some candidate_age,
              is_stale := if (cfg.stale_after_s : ℚ) < candidate_age then 1 else 0,
              is_missing := 0 }],
            bins_total := st.bins_total + 1,
            bins_forward_fill := st.bins_forward_fill + 1,
            current_bin_tick_count := 0,
            current_bin_last_price := none,
            current_bin_last_ts_utc := none,
            current_bin_last_ts_epoch_s := none }
        else
          { st with
            rows := st.rows ++ [{
              bucket_epoch_s := st.current_bin_epoch_s,
              price := none,
              source_ingestion_ts_utc := none,
              source_ingestion_epoch_s := none,
              tick_count_in_bin := st.current_bin_tick_count,
              fill_method := "missing",
              age_seconds := none,
              is_stale := 1,
              is_missing := 1 }],
            bins_total := st.bins_total + 1,
            bins_missing := st.bins_missing + 1,
            current_bin_tick_count := 0,
            current_bin_last_price := none,
            current_bin_last_ts_utc := none,
            current_bin_last_ts_epoch_s := none }
      | _, _ =>
        if candidate_age ≤ (cfg.max_forward_fill_s : ℚ) then
          { st with
            rows := st.rows ++ [{
              bucket_epoch_s := st.current_bin_epoch_s,
              price := some lkPrice,
              source_ingestion_ts_utc := st.last_known_ts_utc,
              source_ingestion_epoch_s := some lkEpoch,
              tick_count_in_bin := st.current_bin_tick_count,
              fill_method := "forward_fill",
              age_seconds := some candidate_age,
              is_stale := if (cfg.stale_after_s : ℚ) < candidate_age then 1 else 0,
              is_missing := 0 }],
            bins_total := st.bins_total + 1,
            bins_forward_fill := st.bins_forward_fill + 1,
            current_bin_tick_count := 0,
            current_bin_last_price := none,
            current_bin_last_ts_utc := none,
            current_bin_last_ts_epoch_s := none }
        else
          { st with
            rows := st.rows ++ [{
              bucket_epoch_s := st.current_bin_epoch_s,
              price := none,
              source_ingestion_ts_utc := none,
              source_ingestion_epoch_s := none,
              tick_count_in_bin := st.current_bin_tick_count,
              fill_method := "missing",
              age_seconds := none,
              is_stale := 1,
              is_missing := 1 }],
            bins_total := st.bins_total + 1,
            bins_missing := st.bins_missing + 1,
            current_bin_tick_count := 0,
            current_bin_last_price := none,
            current_bin_last_ts_utc := none,
            current_bin_last_ts_epoch_s := none }
    | _, _ =>
        { st with
          rows := st.rows ++ [{
            bucket_epoch_s := st.current_bin_epoch_s,
            price := none,
            source_ingestion_ts_utc := none,
            source_ingestion_epoch_s := none,
            tick_count_in_bin := st.current_bin_tick_count,
            fill_method := "missing",
            age_seconds := none,
            is_stale := 1,
            is_missing := 1 }],
          bins_total := st.bins_total + 1,
          bins_missing := st.bins_missing + 1,
          current_bin_tick_count := 0,
          current_bin_last_price := none,
          current_bin_last_ts_utc := none,
          current_bin_last_ts_epoch_s := none }

/-- The inner `while current_bin_epoch_s < tick_bin_epoch_s` loop of
`process_pair`, fuel-indexed.  Each iteration finalizes the current bucket
(passing the arriving tick as `next_tick_*`) and advances the bucket pointer
by `bin_seconds`.  With `bin_seconds ≥ 1` and fuel `(target - cur).toNat`
(what `process_pair` supplies) this runs the loop to completion, since every
iteration advances the pointer by at least 1. -/
def advance_bins (cfg : Config) (tick_epoch_s : Int) (tick_price : ℚ) :
    Nat → Int → PairState → PairState
  | 0, _, st => st
  | Nat.succ fuel, target, st =>
    if st.current_bin_epoch_s < target then
      let st1 := finalize_current_bin cfg st (some tick_epoch_s) (some tick_price)
      advance_bins cfg tick_epoch_s tick_price fuel target
        { st1 with current_bin_epoch_s := st1.current_bin_epoch_s + cfg.bin_seconds }
    else st

/-- The `for` loop of `process_pair` over the streamed ticks: rows whose epoch
did not parse are skipped; otherwise all buckets strictly before the tick's
bucket are finalized and the tick is accumulated into its bucket. -/
def process_ticks (cfg : Config) : List Tick → PairState → PairState
  | [], st => st
  | t :: rest, st =>
    match t.ts_epoch_s with
    | none => process_ticks cfg rest st
    | some tick_epoch_s =>
      let tick_bin_epoch_s := floor_epoch tick_epoch_s cfg.bin_seconds
      let tick_price := t.effective_price
      let st1 := advance_bins cfg tick_epoch_s tick_price
        (tick_bin_epoch_s - st.current_bin_epoch_s).toNat tick_bin_epoch_s st
      process_ticks cfg rest
        { st1 with
          current_bin_tick_count := st1.current_bin_tick_count + 1,
          current_bin_last_price := some tick_price,
          current_bin_last_ts_utc := some t.ingestion_ts_utc,
          current_bin_last_ts_epoch_s := some tick_epoch_s }

/-- The trailing `while current_bin_epoch_s <= end_epoch_s` loop of
`process_pair`, fuel-indexed; end-of-stream finalization passes no next tick. -/
def finalize_tail (cfg : Config) : Nat → Int → PairState → PairState
  | 0, _, st => st
  | Nat.succ fuel, end_epoch_s, st =>
    if st.current_bin_epoch_s ≤ end_epoch_s then
      let st1 := finalize_current_bin cfg st none none
      finalize_tail cfg fuel end_epoch_s
        { st1 with current_bin_epoch_s := st1.current_bin_epoch_s + cfg.bin_seconds }
    else st

/-- Initial sweep state: bucket pointer at `floor_epoch(min_epoch_s)`, empty
accumulator, no last-known value, no rows, zero counters. -/
def init_pair_state (start_epoch_s : Int) : PairState :=
  { current_bin_epoch_s := start_epoch_s,
    current_bin_tick_count := 0,
    current_bin_last_price := none,
    current_bin_last_ts_utc := none,
    current_bin_last_ts_epoch_s := none,
    last_known_price := none,
    last_known_ts_utc := none,
    last_known_ts_epoch_s := none,
    rows := [],
    bins_total := 0,
    bins_observed := 0,
    bins_forward_fill := 0,
    bins_interpolation := 0,
    bins_missing := 0 }

/-- The sweep state at the end of `process_pair`: start at
`floor_epoch(min_epoch_s)`, run the tick loop, then the trailing
`while current_bin_epoch_s <= end_epoch_s` loop. -/
def process_pair_final_state (cfg : Config) (profile : PairProfile) (ticks : List Tick) :
    PairState :=
  let start_epoch_s := floor_epoch profile.min_epoch_s cfg.bin_seconds
  let end_epoch_s := floor_epoch profile.max_epoch_s cfg.bin_seconds
  let st1 := process_ticks cfg ticks (init_pair_state start_epoch_s)
  finalize_tail cfg ((end_epoch_s - st1.current_bin_epoch_s).toNat + 1) end_epoch_s st1

/-- Source `process_pair`: sweep the pair's bucket range, consuming the ordered tick
stream, and return the per-pair summary together with all emitted rows. -/
def process_pair (cfg : Config) (profile : PairProfile) (ticks : List Tick) :
    PairSummary × List BinRow :=
  let st2 := process_pair_final_state cfg profile ticks
  ({ exchange_id := profile.exchange_id,
     symbol := profile.symbol,
     source_tick_count := profile.source_tick_count,
     bins_total := st2.bins_total,
     bins_observed := st2.bins_observed,
     bins_forward_fill := st2.bins_forward_fill,
     bins_interpolation := st2.bins_interpolation,
     bins_missing := st2.bins_missing }, st2.rows)

/-- The ticks of a stream whose timestamp parsed (those `process_pair` uses). -/
def parseTick (t : Tick) : Option PTick :=
  match t.ts_epoch_s with
  | some e => some { ingestion_ts_utc := t.ingestion_ts_utc, ts_epoch_s := e,
                     effective_price := t.effective_price }
  | none => none

/-- All parseable ticks of a stream, in stream order. -/
def parsedTicks (ticks : List Tick) : List PTick := ticks.filterMap parseTick

/-- The bucket a parsed tick falls into. -/
def bucketOf (cfg : Config) (t : PTick) : Int := floor_epoch t.ts_epoch_s cfg.bin_seconds

/-- The parsed ticks falling into bucket `b`, in stream order. -/
def ticksInBucket (cfg : Config) (l : List PTick) (b : Int) : List PTick :=
  l.filter (fun t => decide (bucketOf cfg t = b))

/-- The last parsed tick of any bucket strictly before `b` (stream order). -/
def lastTickBefore (cfg : Config) (l : List PTick) (b : Int) : Option PTick :=
  (l.filter (fun t => decide (bucketOf cfg t < b))).getLast?

/-- The first parsed tick of any bucket strictly after `b` (stream order). -/
def nextTickAfter (cfg : Config) (l : List PTick) (b : Int) : Option PTick :=
  l.find? (fun t => decide (b < bucketOf cfg t))

/-- Reference (denotational) description of the row `process_pair` emits for
bucket `b`, computed from the whole parsed stream: observed from the last tick
in the bucket, otherwise aged from the last tick before the bucket and the
first tick after it, with exactly the branch structure and formulas of
`_finalize_current_bin`. -/
def refRow (cfg : Config) (l : List PTick) (b : Int) : BinRow :=
  match (ticksInBucket cfg l b).getLast? with
  | some w =>
      { bucket_epoch_s := b,
        price := some w.effective_price,
        source_ingestion_ts_utc := some w.ingestion_ts_utc,
        source_ingestion_epoch_s := some w.ts_epoch_s,
        tick_count_in_bin := (ticksInBucket cfg l b).length,
        fill_method := "observed",
        age_seconds := some 0,
        is_stale := 0,
        is_missing := 0 }
  | none =>
    match lastTickBefore cfg l b with
    | some lk =>
      let candidate_age : ℚ := ((b - lk.ts_epoch_s : Int) : ℚ)
      match nextTickAfter cfg l b with
      | some nt =>
        if cfg.fill_method_mode = "interpolation" ∧
            candidate_age ≤ (cfg.max_forward_fill_s : ℚ) ∧
            b < nt.ts_epoch_s ∧
            lk.ts_epoch_s < nt.ts_epoch_s ∧
            ((nt.ts_epoch_s - b : Int) : ℚ) ≤ (cfg.max_forward_fill_s : ℚ) then
          { bucket_epoch_s := b,
            price := some (lk.effective_price + (nt.effective_price - lk.effective_price) *
              (((b - lk.ts_epoch_s : Int) : ℚ) / ((nt.ts_epoch_s - lk.ts_epoch_s : Int) : ℚ))),
            source_ingestion_ts_utc := none,
            source_ingestion_epoch_s := none,
            tick_count_in_bin := 0,
            fill_method := "interpolation",
            age_seconds := some (min ((b - lk.ts_epoch_s : Int) : ℚ) ((nt.ts_epoch_s - b : Int) : ℚ)),
            is_stale := if (cfg.stale_after_s : ℚ) <
                min ((b - lk.ts_epoch_s : Int) : ℚ) ((nt.ts_epoch_s - b : Int) : ℚ) then 1 else 0,
            is_missing := 0 }
        else if candidate_age ≤ (cfg.max_forward_fill_s : ℚ) then
          { bucket_epoch_s := b,
            price := some lk.effective_price,
            source_ingestion_ts_utc := some lk.ingestion_ts_utc,
            source_ingestion_epoch_s := some lk.ts_epoch_s,
            tick_count_in_bin := 0,
            fill_method := "forward_fill",
            age_seconds := some candidate_age,
            is_stale := if (cfg.stale_after_s : ℚ) < candidate_age then 1 else 0,
            is_missing := 0 }
        else
          { bucket_epoch_s := b,
            price := none,
            source_ingestion_ts_utc := none,
            source_ingestion_epoch_s := none,
            tick_count_in_bin := 0,
            fill_method := "missing",
            age_seconds := none,
            is_stale := 1,
            is_missing := 1 }
      | none =>
        if candidate_age ≤ (cfg.max_forward_fill_s : ℚ) then
          { bucket_epoch_s := b,
            price := some lk.effective_price,
            source_ingestion_ts_utc := some lk.ingestion_ts_utc,
            source_ingestion_epoch_s := some lk.ts_epoch_s,
            tick_count_in_bin := 0,
            fill_method := "forward_fill",
            age_seconds := some candidate_age,
            is_stale := if (cfg.stale_after_s : ℚ) < candidate_age then 1 else 0,
            is_missing := 0 }
        else
          { bucket_epoch_s := b,
            price := none,
            source_ingestion_ts_utc := none,
            source_ingestion_epoch_s := none,
            tick_count_in_bin := 0,
            fill_method := "missing",
            age_seconds := none,
            is_stale := 1,
            is_missing := 1 }
    | none =>
        { bucket_epoch_s := b,
          price := none,
          source_ingestion_ts_utc := none,
          source_ingestion_epoch_s := none,
          tick_count_in_bin := 0,
          fill_method := "missing",
          age_seconds := none,
          is_stale := 1,
          is_missing := 1 }

/-- The arithmetic progression of bucket epochs `s, s+d, …, s+d*(n-1)`. -/
def progression (s d : Int) (n : Nat) : List Int :=
  (List.range n).map (fun i : Nat => s + d * (i : Int))

/-- Source `DQSummary` dataclass (counter fields; counts are non-negative integers). -/
structure DQSummary where
  exchange_id : String
  symbol : String
  source_row_count : Nat
  null_ingestion_ts_count : Nat
  invalid_ingestion_ts_count : Nat
  null_effective_price_count : Nat
  non_positive_effective_price_count : Nat
  rows_with_negative_values_count : Nat
  bid_gt_ask_count : Nat
  duplicate_tick_count : Nat
  outlier_return_count : Nat
  issue_counter_sum : Nat
deriving DecidableEq

/-- Source `finalize_dq_issue_counters`: set each summary's `issue_counter_sum` to the
sum of its seven integrity counters plus the outlier-return count (the Python
mutates the list in place; this returns the updated list). -/
def finalize_dq_issue_counters (summaries : List DQSummary) : List DQSummary :=
  summaries.map (fun item =>
    { item with issue_counter_sum :=
        item.null_ingestion_ts_count
        + item.invalid_ingestion_ts_count
        + item.null_effective_price_count
        + item.non_positive_effective_price_count
        + item.rows_with_negative_values_count
        + item.bid_gt_ask_count
        + item.duplicate_tick_count
        + item.outlier_return_count })

/-- One row of the `load_pair_profiles` aggregation query (`MIN`/`MAX` of the
parsed epoch are NULL when no timestamp of the group parses); the list is in
the query's `ORDER BY exchange_id, symbol` order. -/
structure ProfileRow where
  exchange_id : String
  symbol : String
  min_epoch_s : Option Int
  max_epoch_s : Option Int
  source_tick_count : Nat
deriving DecidableEq

/-- Source `load_pair_profiles`: build profiles from the aggregation rows, skipping
rows with a NULL min/max epoch, then apply the optional pair limit — the
Python applies `profiles[:pair_limit]` only when
`pair_limit is not None and pair_limit > 0`. -/
def load_pair_profiles (rows : List ProfileRow) (pair_limit : Option Int) : List PairProfile :=
  let profiles := rows.filterMap (fun row =>
    match row.min_epoch_s, row.max_epoch_s with
    | some mn, some mx =>
        some { exchange_id := row.exchange_id, symbol := row.symbol,
               min_epoch_s := mn, max_epoch_s := mx,
               source_tick_count := row.source_tick_count }
    | _, _ => none)
  match pair_limit with
  | some l => if 0 < l then profiles.take l.toNat else profiles
  | none => profiles

/-- The output-store / source-store operations `main` performs, in program
order (a shallow trace model of `main`'s statement sequence). -/
inductive RunEvent where
  | assert_input_schema
  | ensure_output_schema
  | collect_source_dq
  | load_profiles
  | insert_bin_rows
  | insert_pair_summaries
  | insert_dq_summary
  | insert_dq_run_summary
  | insert_run_metadata
  | write_json_export
deriving DecidableEq

/-- An event that writes bins or summaries (pair or DQ) to the output store. -/
def isOutputDataWrite : RunEvent → Bool
  | RunEvent.insert_bin_rows => true
  | RunEvent.insert_pair_summaries => true
  | RunEvent.insert_dq_summary => true
  | RunEvent.insert_dq_run_summary => true
  | _ => false

/-- The sequence of store operations `main` performs after validation, as a
function of the number of discovered pair profiles and the DQ flag, mirroring
`main`'s statement order: schema checks, optional DQ collection, profile
discovery; then — zero pairs: run metadata first, then the DQ summary tables,
then the JSON export; — otherwise: per-pair bin-row inserts, pair summaries,
the DQ summary tables, run metadata, JSON export. -/
def main_events (pairCount : Nat) (enable_dq : Bool) : List RunEvent :=
  [RunEvent.assert_input_schema, RunEvent.ensure_output_schema]
  ++ (if enable_dq then [RunEvent.collect_source_dq] else [])
  ++ [RunEvent.load_profiles]
  ++ (if pairCount = 0 then
        [RunEvent.insert_run_metadata]
        ++ (if enable_dq then [RunEvent.insert_dq_summary, RunEvent.insert_dq_run_summary] else [])
        ++ [RunEvent.write_json_export]
      else
        List.replicate pairCount RunEvent.insert_bin_rows
        ++ [RunEvent.insert_pair_summaries]
        ++ (if enable_dq then [RunEvent.insert_dq_summary, RunEvent.insert_dq_run_summary] else [])
        ++ [RunEvent.insert_run_metadata, RunEvent.write_json_export])

/-- The argument values `main` validates, plus the facts about the
environment its early checks consult. -/
structure MainArgs where
  bin_seconds : Int
  max_forward_fill_s : Int
  stale_after_s : Int
  insert_batch_size : Int
  workers : Int
  worker_queue_size : Int
  dq_outlier_threshold_pct : ℚ
  input_db_exists : Bool
  enable_dq : Bool
  pairCount : Nat
deriving DecidableEq

/-- Source `main`'s validation prologue followed by its store-operation trace: each
guard in source order raises `SystemExit` (here `Except.error`) before any
schema access, discovery, binning or write happens; on success the run's
operation trace is produced. -/
def run_main (a : MainArgs) : Except String (List RunEvent) :=
  if a.bin_seconds ≤ 0 then Except.error "--bin-seconds must be > 0."
  else if a.max_forward_fill_s < 0 then Except.error "--max-forward-fill-s must be >= 0."
  else if a.stale_after_s < 0 then Except.error "--stale-after-s must be >= 0."
  else if a.insert_batch_size ≤ 0 then Except.error "--insert-batch-size must be > 0."
  else if a.workers ≤ 0 then Except.error "--workers must be > 0."
  else if a.worker_queue_size < 0 then Except.error "--worker-queue-size must be >= 0."
  else if a.dq_outlier_threshold_pct ≤ 0 then Except.error "--dq-outlier-threshold-pct must be > 0."
  else if a.input_db_exists = false then Except.error "Input DB not found"
  else Except.ok (main_events a.pairCount a.enable_dq)

/-- A small concrete run used by several witnesses: 60-second bins,
`max_forward_fill_s = 60`, `stale_after_s = 90`, interpolation mode, ticks at
epochs 0 (price 100) and 180 (price 200), profile range [0, 180]. -/
def exCfg : Config :=
  { bin_seconds := 60, max_forward_fill_s := 60, stale_after_s := 90,
    fill_method_mode := "interpolation" }

/-- Profile of the concrete example run. -/
def exProfile : PairProfile :=
  { exchange_id := "e", symbol := "s", min_epoch_s := 0, max_epoch_s := 180,
    source_tick_count := 2 }

/-- Tick stream of the concrete example run. -/
def exTicks : List Tick :=
  [{ ingestion_ts_utc := "a", ts_epoch_s := some 0, effective_price := 100 },
   { ingestion_ts_utc := "b", ts_epoch_s := some 180, effective_price := 200 }]

/-- Invariant for C5: counters sum up and every emitted row has one of the
four fill methods. -/
def exhaustInv (st : PairState) : Prop :=
  st.bins_total = st.bins_observed + st.bins_forward_fill +
    st.bins_interpolation + st.bins_missing ∧
  ∀ r ∈ st.rows,
    r.fill_method = "observed" ∨ r.fill_method = "forward_fill" ∨
    r.fill_method = "interpolation" ∨ r.fill_method = "missing"

/-- Invariant for C9: missing rows are fully NULL and flagged, non-missing
rows have `is_missing = 0`. -/
def missingInv (st : PairState) : Prop :=
  ∀ r ∈ st.rows,
    (r.fill_method = "missing" →
      r.price = none ∧ r.source_ingestion_ts_utc = none ∧
      r.source_ingestion_epoch_s = none ∧ r.age_seconds = none ∧
      r.is_missing = 1 ∧ r.is_stale = 1) ∧
    ((r.fill_method = "observed" ∨ r.fill_method = "forward_fill" ∨
        r.fill_method = "interpolation") → r.is_missing = 0)

/-- A concrete DQ summary before finalization (counters 1..8, sum unset). -/
def exDQ : DQSummary :=
  { exchange_id := "e", symbol := "s", source_row_count := 50,
    null_ingestion_ts_count := 1, invalid_ingestion_ts_count := 2,
    null_effective_price_count := 3, non_positive_effective_price_count := 4,
    rows_with_negative_values_count := 5, bid_gt_ask_count := 6,
    duplicate_tick_count := 7, outlier_return_count := 8,
    issue_counter_sum := 0 }

/-- Concrete profile rows for the C10 witness (the middle row has NULL epochs
and is skipped by profile building). -/
def exProfileRows : List ProfileRow :=
  [{ exchange_id := "a", symbol := "x", min_epoch_s := some 0,
     max_epoch_s := some 9, source_tick_count := 3 },
   { exchange_id := "b", symbol := "y", min_epoch_s := none,
     max_epoch_s := none, source_tick_count := 2 },
   { exchange_id := "c", symbol := "z", min_epoch_s := some 5,
     max_epoch_s := some 7, source_tick_count := 1 }]

/-- Stream order on parsed ticks: non-decreasing epochs (the epoch order
induced by the query's `ORDER BY ingestion_ts_utc, id` on ISO timestamps). -/
def ptickLE (a b : PTick) : Prop := a.ts_epoch_s ≤ b.ts_epoch_s

/-- Sweep invariant tying the machine state of `process_pair` after consuming
the parsed prefix `p` of the full parsed stream `L` to the reference
description: the emitted rows are the reference rows of the bucket
progression, the bucket pointer sits at the end of that progression, the
per-bucket accumulator reflects the prefix's ticks of the current bucket,
`last_known_*` is the last prefix tick of an earlier bucket, and every prefix
tick lies in a bucket at or before the pointer. -/
structure BinInv (cfg : Config) (start : Int) (L p : List PTick) (st : PairState) : Prop where
  rows_eq : st.rows = (progression start cfg.bin_seconds st.rows.length).map (refRow cfg L)
  cur_eq : st.current_bin_epoch_s = start + cfg.bin_seconds * st.rows.length
  count_eq : st.current_bin_tick_count = (ticksInBucket cfg p st.current_bin_epoch_s).length
  lastp_eq : st.current_bin_last_price =
    ((ticksInBucket cfg p st.current_bin_epoch_s).getLast?).map PTick.effective_price
  lastu_eq : st.current_bin_last_ts_utc =
    ((ticksInBucket cfg p st.current_bin_epoch_s).getLast?).map PTick.ingestion_ts_utc
  laste_eq : st.current_bin_last_ts_epoch_s =
    ((ticksInBucket cfg p st.current_bin_epoch_s).getLast?).map PTick.ts_epoch_s
  lkp_eq : st.last_known_price =
    (lastTickBefore cfg p st.current_bin_epoch_s).map PTick.effective_price
  lku_eq : st.last_known_ts_utc =
    (lastTickBefore cfg p st.current_bin_epoch_s).map PTick.ingestion_ts_utc
  lke_eq : st.last_known_ts_epoch_s =
    (lastTickBefore cfg p st.current_bin_epoch_s).map PTick.ts_epoch_s
  p_bound : ∀ u ∈ p, bucketOf cfg u ≤ st.current_bin_epoch_s

/-- Spec interpolation example: 200-second bins, `max_forward_fill_s = 600`,
ticks 100@epoch0 and 200@epoch1000; bucket 400 interpolates to 140. -/
def exCfgZ : Config :=
  { bin_seconds := 200, max_forward_fill_s := 600, stale_after_s := 90,
    fill_method_mode := "interpolation" }

/-- Profile of the spec interpolation example. -/
def exProfileZ : PairProfile :=
  { exchange_id := "e", symbol := "s", min_epoch_s := 0, max_epoch_s := 1000,
    source_tick_count := 2 }

/-- Ticks of the spec interpolation example. -/
def exTicksZ : List Tick :=
  [{ ingestion_ts_utc := "a", ts_epoch_s := some 0, effective_price := 100 },
   { ingestion_ts_utc := "b", ts_epoch_s := some 1000, effective_price := 200 }]

/-- The interpolated bucket-400 row of the spec interpolation example. -/
def exRowZ : BinRow :=
  { bucket_epoch_s := 400, price := some 140, source_ingestion_ts_utc := none,
    source_ingestion_epoch_s := none, tick_count_in_bin := 0,
    fill_method := "interpolation", age_seconds := some 400, is_stale := 1,
    is_missing := 0 }

/-- Run distinguishing the tick's raw epoch from its bucket epoch in the
interpolation window test: 60-second bins, `max_forward_fill_s = 300`, ticks
at epochs 0 and 361. -/
def exCfgY : Config :=
  { bin_seconds := 60, max_forward_fill_s := 300, stale_after_s := 90,
    fill_method_mode := "interpolation" }

/-- Profile of the raw-epoch/bucket-epoch run. -/
def exProfileY : PairProfile :=
  { exchange_id := "e", symbol := "s", min_epoch_s := 0, max_epoch_s := 361,
    source_tick_count := 2 }

/-- Ticks of the raw-epoch/bucket-epoch run. -/
def exTicksY : List Tick :=
  [{ ingestion_ts_utc := "a", ts_epoch_s := some 0, effective_price := 100 },
   { ingestion_ts_utc := "b", ts_epoch_s := some 361, effective_price := 200 }]

/-- Forward-fill boundary example: 60-second bins, `max_forward_fill_s = 300`,
mode `forward_fill`, ticks at epochs 59 and 660 (ages 241 and 301 at buckets
300 and 360). -/
def exCfgF : Config :=
  { bin_seconds := 60, max_forward_fill_s := 300, stale_after_s := 90,
    fill_method_mode := "forward_fill" }

/-- Profile of the forward-fill boundary example. -/
def exProfileF : PairProfile :=
  { exchange_id := "e", symbol := "s", min_epoch_s := 59, max_epoch_s := 660,
    source_tick_count := 2 }

/-- Ticks of the forward-fill boundary example. -/
def exTicksF : List Tick :=
  [{ ingestion_ts_utc := "a", ts_epoch_s := some 59, effective_price := 10 },
   { ingestion_ts_utc := "b", ts_epoch_s := some 660, effective_price := 20 }]

/-- The bucket-300 forward-filled row of the boundary example (age 241). -/
def exRowF1 : BinRow :=
  { bucket_epoch_s := 300, price := some 10, source_ingestion_ts_utc := some "a",
    source_ingestion_epoch_s := some 59, tick_count_in_bin := 0,
    fill_method := "forward_fill", age_seconds := some 241, is_stale := 1,
    is_missing := 0 }

/-- The bucket-360 missing row of the boundary example (age 301 > 300). -/
def exRowF2 : BinRow :=
  { bucket_epoch_s := 360, price := none, source_ingestion_ts_utc := none,
    source_ingestion_epoch_s := none, tick_count_in_bin := 0,
    fill_method := "missing", age_seconds := none, is_stale := 1,
    is_missing := 1 }

/-- The observed bucket-0 row of the small example run. -/
def exRow0 : BinRow :=
  { bucket_epoch_s := 0, price := some 100, source_ingestion_ts_utc := some "a",
    source_ingestion_epoch_s := some 0, tick_count_in_bin := 1,
    fill_method := "observed", age_seconds := some 0, is_stale := 0,
    is_missing := 0 }

/-- The stream order on parsed ticks is decidable. -/
instance ptickLE_decidable : DecidableRel ptickLE :=
  fun a b => inferInstanceAs (Decidable (a.ts_epoch_s ≤ b.ts_epoch_s))

/-! ## Generic facts about `_finalize_current_bin` and loop preservation -/

/-- Each call of `_finalize_current_bin` appends exactly one row, increments
`bins_total`, and increments exactly one of the four per-method counters,
matching the appended row's `fill_method`; a missing row has all value fields
NULL and both flags set, every other row has `is_missing = 0`. -/
lemma finalize_current_bin_shape (cfg : Config) (st : PairState)
    (ne : Option Int) (np : Option ℚ) :
    ∃ row : BinRow,
      (finalize_current_bin cfg st ne np).rows = st.rows ++ [row] ∧
      (finalize_current_bin cfg st ne np).bins_total = st.bins_total + 1 ∧
      ((row.fill_method = "observed" ∧ row.is_missing = 0 ∧
          (finalize_current_bin cfg st ne np).bins_observed = st.bins_observed + 1 ∧
          (finalize_current_bin cfg st ne np).bins_forward_fill = st.bins_forward_fill ∧
          (finalize_current_bin cfg st ne np).bins_interpolation = st.bins_interpolation ∧
          (finalize_current_bin cfg st ne np).bins_missing = st.bins_missing) ∨
       (row.fill_method = "forward_fill" ∧ row.is_missing = 0 ∧
          (finalize_current_bin cfg st ne np).bins_observed = st.bins_observed ∧
          (finalize_current_bin cfg st ne np).bins_forward_fill = st.bins_forward_fill + 1 ∧
          (finalize_current_bin cfg st ne np).bins_interpolation = st.bins_interpolation ∧
          (finalize_current_bin cfg st ne np).bins_missing = st.bins_missing) ∨
       (row.fill_method = "interpolation" ∧ row.is_missing = 0 ∧
          (finalize_current_bin cfg st ne np).bins_observed = st.bins_observed ∧
          (finalize_current_bin cfg st ne np).bins_forward_fill = st.bins_forward_fill ∧
          (finalize_current_bin cfg st ne np).bins_interpolation = st.bins_interpolation + 1 ∧
          (finalize_current_bin cfg st ne np).bins_missing = st.bins_missing) ∨
       (row.fill_method = "missing" ∧ row.price = none ∧
          row.source_ingestion_ts_utc = none ∧ row.source_ingestion_epoch_s = none ∧
          row.age_seconds = none ∧ row.is_missing = 1 ∧ row.is_stale = 1 ∧
          (finalize_current_bin cfg st ne np).bins_observed = st.bins_observed ∧
          (finalize_current_bin cfg st ne np).bins_forward_fill = st.bins_forward_fill ∧
          (finalize_current_bin cfg st ne np).bins_interpolation = st.bins_interpolation ∧
          (finalize_current_bin cfg st ne np).bins_missing = st.bins_missing + 1)) := by
  rcases st with ⟨cur, cnt, cbp, cbu, cbe, lkp, lku, lke, rs, bt, bo, bf, bi, bm⟩
  rcases cnt with _ | n <;> rcases cbp with _ | pv <;> rcases cbe with _ | ev <;>
    rcases lkp with _ | lp <;> rcases lke with _ | lq <;>
    rcases ne with _ | nte <;> rcases np with _ | ntp <;>
    simp only [finalize_current_bin] <;>
    (try split_ifs) <;>
    refine ⟨_, rfl, ?_, ?_⟩ <;> simp

/-- A state predicate preserved by `_finalize_current_bin` and by bucket-pointer
updates is preserved by the inner advance loop. -/
lemma advance_bins_preserve (cfg : Config) (P : PairState → Prop)
    (hfin : ∀ st ne np, P st → P (finalize_current_bin cfg st ne np))
    (hcur : ∀ st c, P st → P { st with current_bin_epoch_s := c }) :
    ∀ fuel e q target st, P st → P (advance_bins cfg e q fuel target st) := by
  intro fuel
  induction fuel with
  | zero => intro e q target st h; exact h
  | succ n ih =>
    intro e q target st h
    simp only [advance_bins]
    split
    · exact ih e q target _ (hcur _ _ (hfin _ _ _ h))
    · exact h

/-- A state predicate preserved by `_finalize_current_bin`, bucket-pointer
updates and tick accumulation is preserved by the tick loop. -/
lemma process_ticks_preserve (cfg : Config) (P : PairState → Prop)
    (hfin : ∀ st ne np, P st → P (finalize_current_bin cfg st ne np))
    (hcur : ∀ st c, P st → P { st with current_bin_epoch_s := c })
    (hacc : ∀ st c pr u e, P st →
      P { st with current_bin_tick_count := c, current_bin_last_price := pr,
                  current_bin_last_ts_utc := u, current_bin_last_ts_epoch_s := e }) :
    ∀ ticks st, P st → P (process_ticks cfg ticks st) := by
  intro ticks
  induction ticks with
  | nil => intro st h; exact h
  | cons t rest ih =>
    intro st h
    simp only [process_ticks]
    rcases t.ts_epoch_s with _ | e
    · exact ih st h
    · exact ih _ (hacc _ _ _ _ _ (advance_bins_preserve cfg P hfin hcur _ _ _ _ _ h))

/-- A state predicate preserved by `_finalize_current_bin` and bucket-pointer
updates is preserved by the trailing finalization loop. -/
lemma finalize_tail_preserve (cfg : Config) (P : PairState → Prop)
    (hfin : ∀ st ne np, P st → P (finalize_current_bin cfg st ne np))
    (hcur : ∀ st c, P st → P { st with current_bin_epoch_s := c }) :
    ∀ fuel e st, P st → P (finalize_tail cfg fuel e st) := by
  intro fuel
  induction fuel with
  | zero => intro e st h; exact h
  | succ n ih =>
    intro e st h
    simp only [finalize_tail]
    split
    · exact ih e _ (hcur _ _ (hfin _ _ _ h))
    · exact h

/-- Source `floor_epoch` yields a multiple of `bin_seconds`. -/
lemma floor_epoch_dvd (e b : Int) : b ∣ floor_epoch e b := dvd_mul_left b _

/-- Source `floor_epoch` rounds down. -/
lemma floor_epoch_le (e : Int) {b : Int} (hb : 0 < b) : floor_epoch e b ≤ e := by
  unfold floor_epoch
  rw [Int.fdiv_eq_ediv _ hb.le]
  exact Int.ediv_mul_le e hb.ne'

/-- An epoch lies strictly below the next bucket boundary. -/
lemma lt_floor_epoch_add (e : Int) {b : Int} (hb : 0 < b) : e < floor_epoch e b + b := by
  unfold floor_epoch
  rw [Int.fdiv_eq_ediv _ hb.le]
  have h := Int.lt_ediv_add_one_mul_self e hb
  rw [add_mul, one_mul] at h
  exact h

/-- Source `floor_epoch` is monotone for positive bin sizes. -/
lemma floor_epoch_mono {e1 e2 b : Int} (hb : 0 < b) (h : e1 ≤ e2) :
    floor_epoch e1 b ≤ floor_epoch e2 b := by
  unfold floor_epoch
  rw [Int.fdiv_eq_ediv _ hb.le, Int.fdiv_eq_ediv _ hb.le]
  exact mul_le_mul_of_nonneg_right (Int.ediv_le_ediv hb h) hb.le

/-- Buckets are monotone in the epoch. -/
lemma bucketOf_mono (cfg : Config) (hb : 0 < cfg.bin_seconds) {a c : PTick}
    (h : a.ts_epoch_s ≤ c.ts_epoch_s) : bucketOf cfg a ≤ bucketOf cfg c :=
  floor_epoch_mono hb h

/-- If a list's last element satisfies the filter, it is also the filtered
list's last element. -/
lemma getLast?_filter_of_getLast {α : Type} (l : List α) (q : α → Bool) (x : α)
    (h : l.getLast? = some x) (hx : q x = true) : (l.filter q).getLast? = some x := by
  obtain ⟨l2, rfl⟩ := List.getLast?_eq_some_iff.mp h
  rw [List.filter_append, show List.filter q [x] = [x] from by simp [hx],
    List.getLast?_concat]

/-- In an epoch-sorted tick list every element's epoch is at most the last
element's epoch. -/
lemma sorted_le_getLast {l : List PTick} (hs : l.Pairwise ptickLE) {u w : PTick}
    (hu : u ∈ l) (hw : l.getLast? = some w) : u.ts_epoch_s ≤ w.ts_epoch_s := by
  induction l with
  | nil => cases hu
  | cons a t ih =>
    cases t with
    | nil =>
      simp only [List.mem_singleton] at hu
      simp only [List.getLast?_singleton, Option.some.injEq] at hw
      subst hu; subst hw; exact le_refl _
    | cons c t2 =>
      have hw2 : (c :: t2).getLast? = some w := by rwa [List.getLast?_cons_cons] at hw
      rcases List.mem_cons.mp hu with rfl | hu2
      · exact (List.pairwise_cons.mp hs).1 w (List.mem_of_mem_getLast? hw2)
      · exact ih (List.pairwise_cons.mp hs).2 hu2 hw2

/-- Source `find?` skips a leading block of failing elements. -/
lemma find?_append_left_none {α : Type} {q : α → Bool} {l1 l2 : List α}
    (h : ∀ x ∈ l1, q x = false) : (l1 ++ l2).find? q = l2.find? q := by
  rw [List.find?_append, List.find?_eq_none.mpr (fun x hx => by simp [h x hx])]
  rfl

/-- One `_finalize_current_bin` call under the sweep invariant: it appends
exactly the reference row of the current bucket, resets the accumulator,
leaves the bucket pointer unchanged and leaves `last_known_*` pointing at the
last prefix tick (for some counter values). -/
lemma finalize_step (cfg : Config) (start : Int) (L p s : List PTick) (st : PairState)
    (hb : 0 < cfg.bin_seconds)
    (hL : L = p ++ s)
    (hsp : p.Pairwise ptickLE)
    (hinv : BinInv cfg start L p st)
    (hs_gt : ∀ u ∈ s, st.current_bin_epoch_s < bucketOf cfg u) :
    ∃ bt bo bf bi bm,
      finalize_current_bin cfg st ((s.head?).map PTick.ts_epoch_s)
          ((s.head?).map PTick.effective_price) =
        { current_bin_epoch_s := st.current_bin_epoch_s,
          current_bin_tick_count := 0,
          current_bin_last_price := none,
          current_bin_last_ts_utc := none,
          current_bin_last_ts_epoch_s := none,
          last_known_price := (p.getLast?).map PTick.effective_price,
          last_known_ts_utc := (p.getLast?).map PTick.ingestion_ts_utc,
          last_known_ts_epoch_s := (p.getLast?).map PTick.ts_epoch_s,
          rows := st.rows ++ [refRow cfg L st.current_bin_epoch_s],
          bins_total := bt, bins_observed := bo, bins_forward_fill := bf,
          bins_interpolation := bi, bins_missing := bm } := by
  obtain ⟨hrows, hcur, hcount, hlp, hlu, hle1, hkp, hku, hke, hpb⟩ := hinv
  obtain ⟨cur, cnt, cbp, cbu, cbe, lkp, lku, lke, rs, sbt, sbo, sbf, sbi, sbm⟩ := st
  dsimp only at hrows hcur hcount hlp hlu hle1 hkp hku hke hpb hs_gt ⊢
  have hsI : List.filter (fun t => decide (bucketOf cfg t = cur)) s = [] :=
    List.filter_eq_nil_iff.mpr (fun u hu => by simpa using (hs_gt u hu).ne')
  have hIL : ticksInBucket cfg L cur = ticksInBucket cfg p cur := by
    unfold ticksInBucket
    rw [hL, List.filter_append, hsI, List.append_nil]
  have hsB : List.filter (fun t => decide (bucketOf cfg t < cur)) s = [] :=
    List.filter_eq_nil_iff.mpr (fun u hu => by simpa using not_lt.mpr (hs_gt u hu).le)
  have hBL : lastTickBefore cfg L cur = lastTickBefore cfg p cur := by
    unfold lastTickBefore
    rw [hL, List.filter_append, hsB, List.append_nil]
  have hNL : nextTickAfter cfg L cur = s.head? := by
    unfold nextTickAfter
    rw [hL, find?_append_left_none (fun u hu => by simpa using not_lt.mpr (hpb u hu))]
    cases s with
    | nil => rfl
    | cons t s2 =>
      rw [List.find?_cons]
      simp [show cur < bucketOf cfg t from hs_gt t (by simp)]
  rcases hgl : (ticksInBucket cfg p cur).getLast? with _ | w
  · -- the current bucket saw no prefix tick
    have hnil : ticksInBucket cfg p cur = [] := List.getLast?_eq_none_iff.mp hgl
    have hcnt0 : cnt = 0 := by rw [hcount, hnil]; rfl
    have hcbp : cbp = none := by rw [hlp, hgl]; rfl
    have hcbu : cbu = none := by rw [hlu, hgl]; rfl
    have hcbe : cbe = none := by rw [hle1, hgl]; rfl
    subst hcnt0; subst hcbp; subst hcbu; subst hcbe
    have hall : ∀ u ∈ p, bucketOf cfg u < cur := by
      intro u hu
      rcases lt_or_eq_of_le (hpb u hu) with h | h
      · exact h
      · exfalso
        have hmem : u ∈ ticksInBucket cfg p cur := List.mem_filter.mpr ⟨hu, by simp [h]⟩
        rw [hnil] at hmem
        cases hmem
    have hfb : lastTickBefore cfg p cur = p.getLast? := by
      unfold lastTickBefore
      rw [List.filter_eq_self.mpr (fun u hu => by simpa using hall u hu)]
    rcases hlk : lastTickBefore cfg p cur with _ | lk
    · -- no last-known value either: emit a missing row
      have hpl : p.getLast? = none := hfb.symm.trans hlk
      have hklp : lkp = none := by rw [hkp, hlk]; rfl
      have hklu : lku = none := by rw [hku, hlk]; rfl
      have hkle : lke = none := by rw [hke, hlk]; rfl
      subst hklp; subst hklu; subst hkle
      cases s with
      | nil =>
        exact ⟨sbt + 1, sbo, sbf, sbi, sbm + 1,
          by simp [finalize_current_bin, refRow, hIL, hnil, hBL, hlk, hpl]⟩
      | cons t s2 =>
        exact ⟨sbt + 1, sbo, sbf, sbi, sbm + 1,
          by simp [finalize_current_bin, refRow, hIL, hnil, hBL, hlk, hpl]⟩
    · -- last-known value exists: forward fill / interpolate / missing by age
      have hpl : p.getLast? = some lk := hfb.symm.trans hlk
      have hklp : lkp = some lk.effective_price := by rw [hkp, hlk]; rfl
      have hklu : lku = some lk.ingestion_ts_utc := by rw [hku, hlk]; rfl
      have hkle : lke = some lk.ts_epoch_s := by rw [hke, hlk]; rfl
      subst hklp; subst hklu; subst hkle
      cases s with
      | nil =>
        by_cases hage : ((cur - lk.ts_epoch_s : Int) : ℚ) ≤ (cfg.max_forward_fill_s : ℚ)
        · refine ⟨sbt + 1, sbo, sbf + 1, sbi, sbm, ?_⟩
          simp only [finalize_current_bin, refRow, hIL, hnil, hBL, hlk, hNL, hpl,
            List.head?_nil, Option.map_none', List.getLast?_nil, Option.map_some']
          rw [if_pos hage, if_pos hage]
        · refine ⟨sbt + 1, sbo, sbf, sbi, sbm + 1, ?_⟩
          simp only [finalize_current_bin, refRow, hIL, hnil, hBL, hlk, hNL, hpl,
            List.head?_nil, Option.map_none', List.getLast?_nil, Option.map_some']
          rw [if_neg hage, if_neg hage]
      | cons t s2 =>
        by_cases hint : cfg.fill_method_mode = "interpolation" ∧
            ((cur - lk.ts_epoch_s : Int) : ℚ) ≤ (cfg.max_forward_fill_s : ℚ) ∧
            cur < t.ts_epoch_s ∧ lk.ts_epoch_s < t.ts_epoch_s ∧
            ((t.ts_epoch_s - cur : Int) : ℚ) ≤ (cfg.max_forward_fill_s : ℚ)
        · refine ⟨sbt + 1, sbo, sbf, sbi + 1, sbm, ?_⟩
          simp only [finalize_current_bin, refRow, hIL, hnil, hBL, hlk, hNL, hpl,
            List.head?_cons, Option.map_some', List.getLast?_nil]
          rw [if_pos hint, if_pos hint]
        · by_cases hage : ((cur - lk.ts_epoch_s : Int) : ℚ) ≤ (cfg.max_forward_fill_s : ℚ)
          · refine ⟨sbt + 1, sbo, sbf + 1, sbi, sbm, ?_⟩
            simp only [finalize_current_bin, refRow, hIL, hnil, hBL, hlk, hNL, hpl,
              List.head?_cons, Option.map_some', List.getLast?_nil]
            rw [if_neg hint, if_neg hint, if_pos hage, if_pos hage]
          · refine ⟨sbt + 1, sbo, sbf, sbi, sbm + 1, ?_⟩
            simp only [finalize_current_bin, refRow, hIL, hnil, hBL, hlk, hNL, hpl,
              List.head?_cons, Option.map_some', List.getLast?_nil]
            rw [if_neg hint, if_neg hint, if_neg hage, if_neg hage]
  · -- the current bucket saw at least one prefix tick: emit an observed row
    have hW : w ∈ ticksInBucket cfg p cur := List.mem_of_mem_getLast? hgl
    have hwp : w ∈ p ∧ bucketOf cfg w = cur := by
      have := List.mem_filter.mp hW
      exact ⟨this.1, by simpa using this.2⟩
    have hpne : p ≠ [] := by
      intro h
      rw [h] at hwp
      cases hwp.1
    have hz : p.getLast? = some (p.getLast hpne) := List.getLast?_eq_getLast p hpne
    have hle2 : w.ts_epoch_s ≤ (p.getLast hpne).ts_epoch_s := sorted_le_getLast hsp hwp.1 hz
    have hbz : bucketOf cfg (p.getLast hpne) = cur := by
      refine le_antisymm (hpb _ (List.getLast_mem hpne)) ?_
      calc cur = bucketOf cfg w := hwp.2.symm
        _ ≤ bucketOf cfg (p.getLast hpne) := bucketOf_mono cfg hb hle2
    have hfl : (ticksInBucket cfg p cur).getLast? = some (p.getLast hpne) :=
      getLast?_filter_of_getLast p _ _ hz (by simp [ticksInBucket, hbz])
    have hwz : w = p.getLast hpne := by
      have h2 := hgl.symm.trans hfl
      exact Option.some.inj h2
    have hpl : p.getLast? = some w := by rw [hwz]; exact hz
    obtain ⟨n, hn⟩ : ∃ n, (ticksInBucket cfg p cur).length = n + 1 := by
      have hne2 : ticksInBucket cfg p cur ≠ [] := by
        intro h
        rw [h] at hgl
        cases hgl
      exact ⟨(ticksInBucket cfg p cur).length - 1,
        by have := List.length_pos.mpr hne2; omega⟩
    have hcnt : cnt = n + 1 := by rw [hcount, hn]
    have hcbp : cbp = some w.effective_price := by rw [hlp, hgl]; rfl
    have hcbu : cbu = some w.ingestion_ts_utc := by rw [hlu, hgl]; rfl
    have hcbe : cbe = some w.ts_epoch_s := by rw [hle1, hgl]; rfl
    subst hcnt; subst hcbp; subst hcbu; subst hcbe
    exact ⟨sbt + 1, sbo + 1, sbf, sbi, sbm,
      by simp [finalize_current_bin, refRow, hIL, hgl, hpl, hn]⟩

/-- Source `progression` unfolds one step at the top end. -/
lemma progression_succ (s d : Int) (n : Nat) :
    progression s d (n + 1) = progression s d n ++ [s + d * (n : Int)] := by
  unfold progression
  rw [List.range_succ, List.map_append]
  rfl

/-- Length of a `progression`. -/
lemma progression_length (s d : Int) (n : Nat) : (progression s d n).length = n := by
  simp [progression]

/-- No tick lies in a bucket beyond all ticks' buckets. -/
lemma ticksInBucket_eq_nil_of_lt (cfg : Config) (l : List PTick) (c : Int)
    (h : ∀ u ∈ l, bucketOf cfg u < c) : ticksInBucket cfg l c = [] :=
  List.filter_eq_nil_iff.mpr (fun u hu => by simpa using (h u hu).ne)

/-- If every tick's bucket is before `c`, the last tick before `c` is the last
tick of the list. -/
lemma lastTickBefore_eq_getLast (cfg : Config) (l : List PTick) (c : Int)
    (h : ∀ u ∈ l, bucketOf cfg u < c) : lastTickBefore cfg l c = l.getLast? := by
  unfold lastTickBefore
  rw [List.filter_eq_self.mpr (fun u hu => by simpa using h u hu)]

/-- The trailing loop does nothing once the bucket pointer passed the end. -/
lemma finalize_tail_stop (cfg : Config) (fuel : Nat) (e1 : Int) (st : PairState)
    (h : ¬ st.current_bin_epoch_s ≤ e1) : finalize_tail cfg fuel e1 st = st := by
  cases fuel with
  | zero => rfl
  | succ n => simp [finalize_tail, h]

/-- Re-establishing the sweep invariant after one finalize-and-advance step
when every prefix tick's bucket is at or before the finalized bucket. -/
lemma binInv_advanced (cfg : Config) (start : Int) (L p : List PTick)
    (hb : 0 < cfg.bin_seconds)
    (cur : Int) (rs : List BinRow) (bt bo bf bi bm : Nat)
    (hrows : rs = (progression start cfg.bin_seconds rs.length).map (refRow cfg L))
    (hcur : cur = start + cfg.bin_seconds * rs.length)
    (hpb : ∀ u ∈ p, bucketOf cfg u ≤ cur) :
    BinInv cfg start L p
      { current_bin_epoch_s := cur + cfg.bin_seconds,
        current_bin_tick_count := 0,
        current_bin_last_price := none,
        current_bin_last_ts_utc := none,
        current_bin_last_ts_epoch_s := none,
        last_known_price := (p.getLast?).map PTick.effective_price,
        last_known_ts_utc := (p.getLast?).map PTick.ingestion_ts_utc,
        last_known_ts_epoch_s := (p.getLast?).map PTick.ts_epoch_s,
        rows := rs ++ [refRow cfg L cur],
        bins_total := bt, bins_observed := bo, bins_forward_fill := bf,
        bins_interpolation := bi, bins_missing := bm } := by
  have hlt : ∀ u ∈ p, bucketOf cfg u < cur + cfg.bin_seconds :=
    fun u hu => lt_of_le_of_lt (hpb u hu) (by omega)
  have hnil : ticksInBucket cfg p (cur + cfg.bin_seconds) = [] :=
    ticksInBucket_eq_nil_of_lt cfg p _ hlt
  have hlast : lastTickBefore cfg p (cur + cfg.bin_seconds) = p.getLast? :=
    lastTickBefore_eq_getLast cfg p _ hlt
  refine ⟨?_, ?_, ?_, ?_, ?_, ?_, ?_, ?_, ?_, ?_⟩
  · dsimp only
    rw [List.length_append, List.length_singleton, progression_succ, List.map_append]
    rw [← hrows, ← hcur]
    rfl
  · dsimp only
    rw [List.length_append, List.length_singleton, hcur]
    push_cast
    ring
  · dsimp only
    rw [hnil]
    rfl
  · dsimp only
    rw [hnil]
    rfl
  · dsimp only
    rw [hnil]
    rfl
  · dsimp only
    rw [hnil]
    rfl
  · dsimp only
    rw [hlast]
  · dsimp only
    rw [hlast]
  · dsimp only
    rw [hlast]
  · intro u hu
    dsimp only
    exact (hlt u hu).le

/-- The inner advance loop under the sweep invariant: with the fuel
`process_pair` supplies it drives the bucket pointer exactly to the arriving
tick's bucket, emitting the reference row of every bucket it crosses. -/
lemma advance_bins_inv (cfg : Config) (start : Int) (L p : List PTick)
    (t : PTick) (s2 : List PTick)
    (hb : 0 < cfg.bin_seconds)
    (hstart : cfg.bin_seconds ∣ start)
    (hL : L = p ++ t :: s2)
    (hsp : p.Pairwise ptickLE)
    (hs_ge : ∀ u ∈ t :: s2, bucketOf cfg t ≤ bucketOf cfg u) :
    ∀ (fuel : Nat) (st : PairState), BinInv cfg start L p st →
      st.current_bin_epoch_s ≤ bucketOf cfg t →
      (bucketOf cfg t - st.current_bin_epoch_s).toNat ≤ fuel →
      BinInv cfg start L p
          (advance_bins cfg t.ts_epoch_s t.effective_price fuel (bucketOf cfg t) st) ∧
        (advance_bins cfg t.ts_epoch_s t.effective_price fuel
            (bucketOf cfg t) st).current_bin_epoch_s = bucketOf cfg t := by
  intro fuel
  induction fuel with
  | zero =>
    intro st hinv hle hfuel
    have hcur : st.current_bin_epoch_s = bucketOf cfg t := by omega
    exact ⟨hinv, hcur⟩
  | succ n ih =>
    intro st hinv hle hfuel
    simp only [advance_bins]
    by_cases hlt : st.current_bin_epoch_s < bucketOf cfg t
    · rw [if_pos hlt]
      have hdvd : cfg.bin_seconds ∣ bucketOf cfg t - st.current_bin_epoch_s := by
        rw [hinv.cur_eq]
        have h1 : cfg.bin_seconds ∣ bucketOf cfg t := floor_epoch_dvd _ _
        have h2 : cfg.bin_seconds ∣ cfg.bin_seconds * (st.rows.length : Int) :=
          Dvd.intro _ rfl
        have h3 := dvd_sub (dvd_sub h1 hstart) h2
        have h4 : bucketOf cfg t - start - cfg.bin_seconds * (st.rows.length : Int) =
            bucketOf cfg t - (start + cfg.bin_seconds * (st.rows.length : Int)) := by ring
        rwa [h4] at h3
      have hstep : cfg.bin_seconds ≤ bucketOf cfg t - st.current_bin_epoch_s :=
        Int.le_of_dvd (by omega) hdvd
      obtain ⟨bt, bo, bf, bi, bm, heq⟩ :=
        finalize_step cfg start L p (t :: s2) st hb hL hsp hinv
          (fun u hu => lt_of_lt_of_le hlt (hs_ge u hu))
      simp only [List.head?_cons, Option.map_some'] at heq
      rw [heq]
      dsimp only
      have hnext := binInv_advanced cfg start L p hb st.current_bin_epoch_s st.rows
        bt bo bf bi bm hinv.rows_eq hinv.cur_eq hinv.p_bound
      have hgoal := ih _ hnext (by dsimp only; omega) (by dsimp only; omega)
      exact hgoal
    · rw [if_neg hlt]
      exact ⟨hinv, by omega⟩

/-- Parsed view of a stream whose head has no parseable timestamp. -/
lemma parsedTicks_cons_none (tk : Tick) (rest : List Tick) (h : tk.ts_epoch_s = none) :
    parsedTicks (tk :: rest) = parsedTicks rest := by
  simp [parsedTicks, List.filterMap_cons, parseTick, h]

/-- Parsed view of a stream whose head parsed to epoch `e`. -/
lemma parsedTicks_cons_some (tk : Tick) (rest : List Tick) (e : Int)
    (h : tk.ts_epoch_s = some e) :
    parsedTicks (tk :: rest) =
      (⟨tk.ingestion_ts_utc, e, tk.effective_price⟩ : PTick) :: parsedTicks rest := by
  simp [parsedTicks, List.filterMap_cons, parseTick, h]

/-- Accumulating a tick of the current bucket preserves the sweep invariant,
extending the consumed prefix by that tick. -/
lemma binInv_accum (cfg : Config) (start : Int) (L p : List PTick) (t : PTick)
    (st : PairState)
    (hinv : BinInv cfg start L p st)
    (hcur : st.current_bin_epoch_s = bucketOf cfg t) :
    BinInv cfg start L (p ++ [t])
      { st with
        current_bin_tick_count := st.current_bin_tick_count + 1,
        current_bin_last_price := some t.effective_price,
        current_bin_last_ts_utc := some t.ingestion_ts_utc,
        current_bin_last_ts_epoch_s := some t.ts_epoch_s } := by
  have hfilter_eq : ticksInBucket cfg (p ++ [t]) st.current_bin_epoch_s =
      ticksInBucket cfg p st.current_bin_epoch_s ++ [t] := by
    unfold ticksInBucket
    rw [List.filter_append]
    simp [hcur]
  have hbefore_eq : lastTickBefore cfg (p ++ [t]) st.current_bin_epoch_s =
      lastTickBefore cfg p st.current_bin_epoch_s := by
    unfold lastTickBefore
    rw [List.filter_append]
    simp [hcur]
  refine ⟨?_, ?_, ?_, ?_, ?_, ?_, ?_, ?_, ?_, ?_⟩ <;> dsimp only
  · exact hinv.rows_eq
  · exact hinv.cur_eq
  · rw [hfilter_eq, List.length_append, hinv.count_eq]
    rfl
  · rw [hfilter_eq, List.getLast?_concat]
    rfl
  · rw [hfilter_eq, List.getLast?_concat]
    rfl
  · rw [hfilter_eq, List.getLast?_concat]
    rfl
  · rw [hbefore_eq]
    exact hinv.lkp_eq
  · rw [hbefore_eq]
    exact hinv.lku_eq
  · rw [hbefore_eq]
    exact hinv.lke_eq
  · intro u hu
    rcases List.mem_append.mp hu with h | h
    · exact hinv.p_bound u h
    · simp only [List.mem_singleton] at h
      subst h
      rw [hcur]

/-- The tick loop under the sweep invariant: after consuming the whole stream,
the invariant holds with the full parsed list, the bucket pointer sits at the
last tick's bucket (or at the sweep start for an empty stream). -/
lemma process_ticks_inv (cfg : Config) (start : Int) (L : List PTick)
    (hb : 0 < cfg.bin_seconds)
    (hstart : cfg.bin_seconds ∣ start)
    (hsL : L.Pairwise ptickLE)
    (hstartle : ∀ u ∈ L, start ≤ bucketOf cfg u) :
    ∀ (ticks : List Tick) (p : List PTick) (st : PairState),
      L = p ++ parsedTicks ticks →
      BinInv cfg start L p st →
      (p = [] → st.current_bin_epoch_s = start) →
      (∀ w, p.getLast? = some w → st.current_bin_epoch_s = bucketOf cfg w) →
      BinInv cfg start L L (process_ticks cfg ticks st) ∧
        (L = [] → (process_ticks cfg ticks st).current_bin_epoch_s = start) ∧
        (∀ w, L.getLast? = some w →
          (process_ticks cfg ticks st).current_bin_epoch_s = bucketOf cfg w) := by
  intro ticks
  induction ticks with
  | nil =>
    intro p st hL hinv hf0 hfw
    have hpL : p = L := by
      have := hL
      simp only [parsedTicks, List.filterMap_nil, List.append_nil] at this
      exact this.symm
    subst hpL
    exact ⟨hinv, hf0, hfw⟩
  | cons tk rest ih =>
    intro p st hL hinv hf0 hfw
    obtain ⟨utc, tse, price⟩ := tk
    cases htk : tse with
    | none =>
      subst htk
      rw [parsedTicks_cons_none _ rest rfl] at hL
      have hres := ih p st hL hinv hf0 hfw
      simp only [process_ticks]
      exact hres
    | some e =>
      subst htk
      rw [parsedTicks_cons_some _ rest e rfl] at hL
      have hsplit := List.pairwise_append.mp (hL ▸ hsL)
      have hsp : p.Pairwise ptickLE := hsplit.1
      have hsuffix := hsplit.2.1
      have hcross := hsplit.2.2
      have hs_ge : ∀ u ∈ ((⟨utc, e, price⟩ : PTick) : PTick) :: parsedTicks rest,
          bucketOf cfg (⟨utc, e, price⟩ : PTick) ≤ bucketOf cfg u := by
        intro u hu
        rcases List.mem_cons.mp hu with h | h
        · rw [h]
        · exact bucketOf_mono cfg hb ((List.pairwise_cons.mp hsuffix).1 u h)
      have hle : st.current_bin_epoch_s ≤
          bucketOf cfg (⟨utc, e, price⟩ : PTick) := by
        rcases hp : p.getLast? with _ | w
        · have hpn : p = [] := List.getLast?_eq_none_iff.mp hp
          rw [hf0 hpn]
          exact hstartle _ (by rw [hL]; simp)
        · rw [hfw w hp]
          exact bucketOf_mono cfg hb
            (hcross w (List.mem_of_mem_getLast? hp) _ (by simp))
      obtain ⟨hinv2, hcur2⟩ := advance_bins_inv cfg start L p
        (⟨utc, e, price⟩ : PTick) (parsedTicks rest)
        hb hstart hL hsp hs_ge
        (bucketOf cfg (⟨utc, e, price⟩ : PTick) - st.current_bin_epoch_s).toNat
        st hinv hle (le_refl _)
      have hinv3 := binInv_accum cfg start L p _ _ hinv2 hcur2
      have hres := ih (p ++ [(⟨utc, e, price⟩ : PTick)]) _
        (by rw [hL, List.append_assoc]; rfl) hinv3
        (by intro h; exact absurd h (by simp))
        (by
          intro w hw
          rw [List.getLast?_concat] at hw
          have hwt := Option.some.inj hw
          dsimp only
          rw [hcur2, ← hwt])
      simp only [process_ticks]
      dsimp only [bucketOf] at hres
      exact hres

/-- The trailing loop under the sweep invariant: it emits the reference row of
every bucket from the pointer through `e1` and stops at `e1 + bin_seconds`. -/
lemma finalize_tail_inv (cfg : Config) (start : Int) (L : List PTick)
    (hb : 0 < cfg.bin_seconds)
    (hsL : L.Pairwise ptickLE) :
    ∀ (fuel : Nat) (e1 : Int) (st : PairState),
      BinInv cfg start L L st →
      cfg.bin_seconds ∣ (e1 - st.current_bin_epoch_s) →
      st.current_bin_epoch_s ≤ e1 →
      (e1 - st.current_bin_epoch_s).toNat < fuel →
      BinInv cfg start L L (finalize_tail cfg fuel e1 st) ∧
        (finalize_tail cfg fuel e1 st).current_bin_epoch_s = e1 + cfg.bin_seconds := by
  intro fuel
  induction fuel with
  | zero =>
    intro e1 st _ _ _ hfuel
    exact absurd hfuel (by omega)
  | succ n ih =>
    intro e1 st hinv hdvd hle hfuel
    simp only [finalize_tail]
    rw [if_pos hle]
    obtain ⟨bt, bo, bf, bi, bm, heq⟩ :=
      finalize_step cfg start L L [] st hb (by simp) hsL hinv (by simp)
    simp only [List.head?_nil, Option.map_none'] at heq
    rw [heq]
    dsimp only
    have hnext := binInv_advanced cfg start L L hb st.current_bin_epoch_s st.rows
      bt bo bf bi bm hinv.rows_eq hinv.cur_eq hinv.p_bound
    by_cases h2 : st.current_bin_epoch_s + cfg.bin_seconds ≤ e1
    · have hdvd2 : cfg.bin_seconds ∣
          (e1 - (st.current_bin_epoch_s + cfg.bin_seconds)) := by
        have h3 := dvd_sub hdvd (dvd_refl cfg.bin_seconds)
        have h4 : e1 - st.current_bin_epoch_s - cfg.bin_seconds =
            e1 - (st.current_bin_epoch_s + cfg.bin_seconds) := by ring
        rwa [h4] at h3
      exact ih e1 _ hnext hdvd2 h2 (by dsimp only; omega)
    · have hstop : e1 - st.current_bin_epoch_s = 0 := by
        by_contra hne
        have hpos : 0 < e1 - st.current_bin_epoch_s := by omega
        have := Int.le_of_dvd hpos hdvd
        omega
      rw [finalize_tail_stop cfg n e1 _ (by dsimp only; omega)]
      exact ⟨hnext, by dsimp only; omega⟩

/-- Every branch of `refRow` stamps the row with its bucket epoch. -/
lemma refRow_bucket (cfg : Config) (l : List PTick) (b1 : Int) :
    (refRow cfg l b1).bucket_epoch_s = b1 := by
  unfold refRow
  repeat first | rfl | split | dsimp only

/-- A `progression` with a non-zero step has no duplicates. -/
lemma progression_nodup (s d : Int) (hd : d ≠ 0) (n : Nat) :
    (progression s d n).Nodup := by
  unfold progression
  refine List.Nodup.map ?_ (List.nodup_range n)
  intro i j hij
  dsimp only at hij
  have h2 : d * (i : Int) = d * (j : Int) := by linarith
  have h3 : (i : Int) = (j : Int) := mul_left_cancel₀ hd h2
  exact_mod_cast h3

/-- Characterization of `process_pair`: with a positive bin size, an
epoch-sorted tick stream and a profile range covering every parsed tick, the
emitted rows are exactly the reference rows of the dense bucket progression
from `floor_epoch(min_epoch)` to `floor_epoch(max_epoch)`. -/
theorem process_pair_rows_eq (cfg : Config) (profile : PairProfile) (ticks : List Tick)
    (hb : 0 < cfg.bin_seconds)
    (hsorted : (parsedTicks ticks).Pairwise ptickLE)
    (hlo : ∀ t ∈ parsedTicks ticks, profile.min_epoch_s ≤ t.ts_epoch_s)
    (hhi : ∀ t ∈ parsedTicks ticks, t.ts_epoch_s ≤ profile.max_epoch_s)
    (hmm1 : profile.min_epoch_s ≤ profile.max_epoch_s) :
    (process_pair cfg profile ticks).2 =
      (progression (floor_epoch profile.min_epoch_s cfg.bin_seconds) cfg.bin_seconds
        (((floor_epoch profile.max_epoch_s cfg.bin_seconds -
            floor_epoch profile.min_epoch_s cfg.bin_seconds).fdiv cfg.bin_seconds).toNat + 1)).map
        (refRow cfg (parsedTicks ticks)) := by
  set start1 := floor_epoch profile.min_epoch_s cfg.bin_seconds with hstart1
  set end1 := floor_epoch profile.max_epoch_s cfg.bin_seconds with hend1
  have hstartdvd : cfg.bin_seconds ∣ start1 := floor_epoch_dvd _ _
  have henddvd : cfg.bin_seconds ∣ end1 := floor_epoch_dvd _ _
  have hstartle : ∀ u ∈ parsedTicks ticks, start1 ≤ bucketOf cfg u :=
    fun u hu => floor_epoch_mono hb (hlo u hu)
  have hinit : BinInv cfg start1 (parsedTicks ticks) [] (init_pair_state start1) := by
    refine ⟨?_, ?_, ?_, ?_, ?_, ?_, ?_, ?_, ?_, ?_⟩ <;>
      simp [init_pair_state, progression, ticksInBucket, lastTickBefore]
  obtain ⟨hinv1, hf0, hfw⟩ := process_ticks_inv cfg start1 (parsedTicks ticks) hb
    hstartdvd hsorted hstartle ticks [] (init_pair_state start1) (by simp)
    hinit (fun _ => rfl) (fun w hw => absurd hw (by simp))
  set st1 := process_ticks cfg ticks (init_pair_state start1) with hst1
  have hle1 : st1.current_bin_epoch_s ≤ end1 := by
    rcases hgl : (parsedTicks ticks).getLast? with _ | w
    · have hLnil : parsedTicks ticks = [] := List.getLast?_eq_none_iff.mp hgl
      rw [hf0 hLnil]
      exact floor_epoch_mono hb hmm1
    · rw [hfw w hgl]
      exact floor_epoch_mono hb (hhi w (List.mem_of_mem_getLast? hgl))
  have hdvd1 : cfg.bin_seconds ∣ (end1 - st1.current_bin_epoch_s) := by
    rw [hinv1.cur_eq]
    have h2 : cfg.bin_seconds ∣ cfg.bin_seconds * (st1.rows.length : Int) :=
      Dvd.intro _ rfl
    have h3 := dvd_sub (dvd_sub henddvd hstartdvd) h2
    have h4 : end1 - start1 - cfg.bin_seconds * (st1.rows.length : Int) =
        end1 - (start1 + cfg.bin_seconds * (st1.rows.length : Int)) := by ring
    rwa [h4] at h3
  obtain ⟨hinv2, hcur2⟩ := finalize_tail_inv cfg start1 (parsedTicks ticks) hb hsorted
    ((end1 - st1.current_bin_epoch_s).toNat + 1) end1 st1 hinv1 hdvd1 hle1 (by omega)
  set st2 := finalize_tail cfg ((end1 - st1.current_bin_epoch_s).toNat + 1) end1 st1 with hst2
  have hdiff : cfg.bin_seconds ∣ (end1 - start1) := dvd_sub henddvd hstartdvd
  have hexact : (end1 - start1).fdiv cfg.bin_seconds * cfg.bin_seconds = end1 - start1 := by
    rw [Int.fdiv_eq_ediv _ hb.le]
    exact Int.ediv_mul_cancel hdiff
  have hge : start1 ≤ end1 := floor_epoch_mono hb hmm1
  have hmn : 0 ≤ (end1 - start1).fdiv cfg.bin_seconds := by
    rw [Int.fdiv_eq_ediv _ hb.le]
    exact Int.ediv_nonneg (by omega) hb.le
  have hlen : (st2.rows.length : Int) = (end1 - start1).fdiv cfg.bin_seconds + 1 := by
    have h1 : end1 + cfg.bin_seconds = start1 + cfg.bin_seconds * (st2.rows.length : Int) := by
      rw [← hinv2.cur_eq, hcur2]
    have h2 : cfg.bin_seconds * (st2.rows.length : Int) =
        cfg.bin_seconds * ((end1 - start1).fdiv cfg.bin_seconds + 1) := by
      have h5 : cfg.bin_seconds * ((end1 - start1).fdiv cfg.bin_seconds + 1) =
          end1 - start1 + cfg.bin_seconds := by
        rw [mul_add, mul_one, mul_comm cfg.bin_seconds ((end1 - start1).fdiv cfg.bin_seconds),
          hexact]
      rw [h5]
      omega
    exact mul_left_cancel₀ hb.ne' h2
  have hlenN : st2.rows.length = ((end1 - start1).fdiv cfg.bin_seconds).toNat + 1 := by
    omega
  have hfinal : (process_pair cfg profile ticks).2 = st2.rows := rfl
  rw [hfinal, hinv2.rows_eq, hlenN]

/-- Every emitted row equals the reference row of some bucket (and carries
that bucket's epoch), under the standing hypotheses. -/
lemma mem_rows_refRow (cfg : Config) (profile : PairProfile) (ticks : List Tick)
    (hb : 0 < cfg.bin_seconds)
    (hsorted : (parsedTicks ticks).Pairwise ptickLE)
    (hlo : ∀ t ∈ parsedTicks ticks, profile.min_epoch_s ≤ t.ts_epoch_s)
    (hhi : ∀ t ∈ parsedTicks ticks, t.ts_epoch_s ≤ profile.max_epoch_s)
    (hmm1 : profile.min_epoch_s ≤ profile.max_epoch_s) :
    ∀ r ∈ (process_pair cfg profile ticks).2,
      ∃ b1, r = refRow cfg (parsedTicks ticks) b1 ∧ r.bucket_epoch_s = b1 := by
  intro r hr
  rw [process_pair_rows_eq cfg profile ticks hb hsorted hlo hhi hmm1] at hr
  obtain ⟨b1, hb1, rfl⟩ := List.mem_map.mp hr
  exact ⟨b1, rfl, refRow_bucket cfg _ b1⟩

/-- A state predicate preserved by all three state-updating operations of the
sweep and holding initially holds at the end of the sweep. -/
lemma process_pair_preserve (cfg : Config) (P : PairState → Prop)
    (hfin : ∀ st ne np, P st → P (finalize_current_bin cfg st ne np))
    (hcur : ∀ st c, P st → P { st with current_bin_epoch_s := c })
    (hacc : ∀ st c pr u e, P st →
      P { st with current_bin_tick_count := c, current_bin_last_price := pr,
                  current_bin_last_ts_utc := u, current_bin_last_ts_epoch_s := e })
    (profile : PairProfile) (ticks : List Tick)
    (hinit : P (init_pair_state (floor_epoch profile.min_epoch_s cfg.bin_seconds))) :
    P (process_pair_final_state cfg profile ticks) := by
  unfold process_pair_final_state
  exact finalize_tail_preserve cfg P hfin hcur _ _ _
    (process_ticks_preserve cfg P hfin hcur hacc _ _ hinit)

/-- C5: every emitted bin's `fill_method` is one of the four kinds, and the
returned `PairSummary` satisfies
`bins_total = bins_observed + bins_forward_fill + bins_interpolation + bins_missing`. -/
theorem c5_fill_method_exhaustiveness (cfg : Config) (profile : PairProfile)
    (ticks : List Tick) :
    (process_pair cfg profile ticks).1.bins_total =
      (process_pair cfg profile ticks).1.bins_observed +
      (process_pair cfg profile ticks).1.bins_forward_fill +
      (process_pair cfg profile ticks).1.bins_interpolation +
      (process_pair cfg profile ticks).1.bins_missing ∧
    ∀ r ∈ (process_pair cfg profile ticks).2,
      r.fill_method = "observed" ∨ r.fill_method = "forward_fill" ∨
      r.fill_method = "interpolation" ∨ r.fill_method = "missing" := by
  have h : exhaustInv (process_pair_final_state cfg profile ticks) := by
    refine process_pair_preserve cfg exhaustInv ?_ ?_ ?_ profile ticks ?_
    · intro st ne np hst
      simp only [exhaustInv] at hst ⊢
      obtain ⟨row, hr, ht, hd⟩ := finalize_current_bin_shape cfg st ne np
      constructor
      · rcases hd with ⟨_, _, h1, h2, h3, h4⟩ | ⟨_, _, h1, h2, h3, h4⟩ |
          ⟨_, _, h1, h2, h3, h4⟩ | ⟨_, _, _, _, _, _, _, h1, h2, h3, h4⟩ <;> omega
      · intro r hrm
        rw [hr] at hrm
        rcases List.mem_append.mp hrm with hm | hm
        · exact hst.2 r hm
        · have hrw : r = row := by simpa using hm
          subst hrw
          rcases hd with ⟨h1, _⟩ | ⟨h1, _⟩ | ⟨h1, _⟩ | ⟨h1, _⟩
          · exact Or.inl h1
          · exact Or.inr (Or.inl h1)
          · exact Or.inr (Or.inr (Or.inl h1))
          · exact Or.inr (Or.inr (Or.inr h1))
    · intro st c hst; exact hst
    · intro st c pr u e hst; exact hst
    · exact ⟨rfl, by intro r hr; simp [init_pair_state] at hr⟩
  simp only [exhaustInv] at h
  exact ⟨h.1, h.2⟩

/-- Witness for C5 on the concrete example run (four bins). -/
theorem c5_witness :
    (process_pair exCfg exProfile exTicks).1.bins_total = 4 ∧
    (process_pair exCfg exProfile exTicks).2.length = 4 ∧
    ∀ r ∈ (process_pair exCfg exProfile exTicks).2,
      r.fill_method = "observed" ∨ r.fill_method = "forward_fill" ∨
      r.fill_method = "interpolation" ∨ r.fill_method = "missing" :=
  ⟨by decide, by decide, (c5_fill_method_exhaustiveness exCfg exProfile exTicks).2⟩

/-- C9: every missing bin has NULL price, NULL source timestamp fields, NULL
age, `is_missing = 1` and `is_stale = 1`; every non-missing bin has
`is_missing = 0`. -/
theorem c9_missing_bin_invariant (cfg : Config) (profile : PairProfile)
    (ticks : List Tick) :
    ∀ r ∈ (process_pair cfg profile ticks).2,
      (r.fill_method = "missing" →
        r.price = none ∧ r.source_ingestion_ts_utc = none ∧
        r.source_ingestion_epoch_s = none ∧ r.age_seconds = none ∧
        r.is_missing = 1 ∧ r.is_stale = 1) ∧
      ((r.fill_method = "observed" ∨ r.fill_method = "forward_fill" ∨
          r.fill_method = "interpolation") → r.is_missing = 0) := by
  have h : missingInv (process_pair_final_state cfg profile ticks) := by
    refine process_pair_preserve cfg missingInv ?_ ?_ ?_ profile ticks ?_
    · intro st ne np hst
      simp only [missingInv] at hst ⊢
      obtain ⟨row, hr, ht, hd⟩ := finalize_current_bin_shape cfg st ne np
      intro r hrm
      rw [hr] at hrm
      rcases List.mem_append.mp hrm with hm | hm
      · exact hst r hm
      · have hrw : r = row := by simpa using hm
        subst hrw
        rcases hd with ⟨h1, h2, _⟩ | ⟨h1, h2, _⟩ | ⟨h1, h2, _⟩ |
          ⟨h1, h2, h3, h4, h5, h6, h7, _⟩
        · exact ⟨fun habs => absurd (h1 ▸ habs) (by decide), fun _ => h2⟩
        · exact ⟨fun habs => absurd (h1 ▸ habs) (by decide), fun _ => h2⟩
        · exact ⟨fun habs => absurd (h1 ▸ habs) (by decide), fun _ => h2⟩
        · refine ⟨fun _ => ⟨h2, h3, h4, h5, h6, h7⟩, fun hobs => ?_⟩
          rcases hobs with ho | ho | ho <;> exact absurd (h1 ▸ ho) (by decide)
    · intro st c hst; exact hst
    · intro st c pr u e hst; exact hst
    · intro r hr; simp [init_pair_state] at hr
  simp only [missingInv] at h
  exact h

/-- Witness for C9 on the concrete example run (bucket 120 is missing). -/
theorem c9_witness :
    ((process_pair exCfg exProfile exTicks).2.get? 2).map BinRow.fill_method =
      some "missing" ∧
    ∀ r ∈ (process_pair exCfg exProfile exTicks).2,
      (r.fill_method = "missing" →
        r.price = none ∧ r.source_ingestion_ts_utc = none ∧
        r.source_ingestion_epoch_s = none ∧ r.age_seconds = none ∧
        r.is_missing = 1 ∧ r.is_stale = 1) ∧
      ((r.fill_method = "observed" ∨ r.fill_method = "forward_fill" ∨
          r.fill_method = "interpolation") → r.is_missing = 0) :=
  ⟨by decide, c9_missing_bin_invariant exCfg exProfile exTicks⟩

/-- C6: after finalization every DQ summary's `issue_counter_sum` is the sum of
its seven integrity counters plus the outlier-return count. -/
theorem c6_dq_issue_counter_sum (summaries : List DQSummary) :
    ∀ s ∈ finalize_dq_issue_counters summaries,
      s.issue_counter_sum =
        s.null_ingestion_ts_count + s.invalid_ingestion_ts_count +
        s.null_effective_price_count + s.non_positive_effective_price_count +
        s.rows_with_negative_values_count + s.bid_gt_ask_count +
        s.duplicate_tick_count + s.outlier_return_count := by
  intro s hs
  simp only [finalize_dq_issue_counters, List.mem_map] at hs
  obtain ⟨a, ha, rfl⟩ := hs
  rfl

/-- Witness for C6 on a concrete summary list (1+2+3+4+5+6+7+8 = 36). -/
theorem c6_witness :
    ({ exDQ with issue_counter_sum := 36 } : DQSummary) ∈
      finalize_dq_issue_counters [exDQ] ∧
    ({ exDQ with issue_counter_sum := 36 } : DQSummary).issue_counter_sum =
      ({ exDQ with issue_counter_sum := 36 } : DQSummary).null_ingestion_ts_count +
      ({ exDQ with issue_counter_sum := 36 } : DQSummary).invalid_ingestion_ts_count +
      ({ exDQ with issue_counter_sum := 36 } : DQSummary).null_effective_price_count +
      ({ exDQ with issue_counter_sum := 36 } : DQSummary).non_positive_effective_price_count +
      ({ exDQ with issue_counter_sum := 36 } : DQSummary).rows_with_negative_values_count +
      ({ exDQ with issue_counter_sum := 36 } : DQSummary).bid_gt_ask_count +
      ({ exDQ with issue_counter_sum := 36 } : DQSummary).duplicate_tick_count +
      ({ exDQ with issue_counter_sum := 36 } : DQSummary).outlier_return_count :=
  ⟨by decide, c6_dq_issue_counter_sum [exDQ] _ (by decide)⟩

/-- C10 (theorem): `load_pair_profiles` applies the pair limit only when it is
strictly positive; `None`, `0` and negative limits all return every discovered
profile, and a positive limit returns the first `pair_limit` profiles of the
(ordered) input. -/
theorem c10_pair_limit (rows : List ProfileRow) :
    (∀ l : Int, l ≤ 0 →
      load_pair_profiles rows (some l) = load_pair_profiles rows none) ∧
    (∀ l : Int, 0 < l →
      load_pair_profiles rows (some l) = (load_pair_profiles rows none).take l.toNat) := by
  constructor
  · intro l hl
    simp only [load_pair_profiles]
    rw [if_neg (by omega)]
  · intro l hl
    simp only [load_pair_profiles]
    rw [if_pos hl]

/-- Witness for C10: limit 0 behaves like no limit, limit 1 takes the first
discovered profile. -/
theorem c10_witness :
    ((0 : Int) ≤ 0 ∧
      load_pair_profiles exProfileRows (some 0) = load_pair_profiles exProfileRows none) ∧
    ((0 : Int) < 1 ∧
      load_pair_profiles exProfileRows (some 1) =
        (load_pair_profiles exProfileRows none).take (1 : Int).toNat) :=
  ⟨⟨by decide, (c10_pair_limit exProfileRows).1 0 (by decide)⟩,
   ⟨by decide, (c10_pair_limit exProfileRows).2 1 (by decide)⟩⟩

/-- C7 counterexample: the claim "RunMetadata is written only after all bins
and summaries have been committed, including a run with zero matching pairs"
is false — in the zero-pair branch of `main` the run-metadata insert (source
line 1295) precedes the DQ-summary inserts (lines 1314–1315).  The trace of a
zero-pair DQ-enabled run has a data write (`insert_dq_summary`) at a position
strictly after `insert_run_metadata`. -/
theorem c7_counterexample :
    ¬ (∀ (i j : Fin (main_events 0 true).length),
        (main_events 0 true).get i = RunEvent.insert_run_metadata →
        isOutputDataWrite ((main_events 0 true).get j) = true →
        (j : Nat) < (i : Nat)) := by decide

/-- C7 amended: the RunMetadata record is written exactly once per run trace;
in every run with at least one matching pair it is written after all bins and
summaries (only the JSON export follows it); in a zero-pair run it is written
before the DQ summary writes. -/
theorem c7_amended_metadata_order (pairCount : Nat) (enable_dq : Bool) :
    (main_events pairCount enable_dq).count RunEvent.insert_run_metadata = 1 ∧
    (0 < pairCount →
      ∃ front,
        main_events pairCount enable_dq =
          front ++ [RunEvent.insert_run_metadata, RunEvent.write_json_export] ∧
        ∀ e ∈ front, e ≠ RunEvent.insert_run_metadata) := by
  constructor
  · rcases Nat.eq_zero_or_pos pairCount with h0 | hpos
    · subst h0
      cases enable_dq <;> decide
    · have hne : pairCount ≠ 0 := Nat.pos_iff_ne_zero.mp hpos
      cases enable_dq <;>
        simp [main_events, hne, List.count_append, List.count_replicate,
          List.count_cons, List.count_nil]
  · intro hpos
    have hne : pairCount ≠ 0 := Nat.pos_iff_ne_zero.mp hpos
    refine ⟨[RunEvent.assert_input_schema, RunEvent.ensure_output_schema]
        ++ (if enable_dq then [RunEvent.collect_source_dq] else [])
        ++ [RunEvent.load_profiles]
        ++ List.replicate pairCount RunEvent.insert_bin_rows
        ++ [RunEvent.insert_pair_summaries]
        ++ (if enable_dq then [RunEvent.insert_dq_summary, RunEvent.insert_dq_run_summary]
            else []), ?_, ?_⟩
    · cases enable_dq <;> simp [main_events, hne]
    · intro e he
      intro habs
      subst habs
      cases enable_dq <;>
        simp [List.mem_append, List.mem_replicate] at he

/-- Witness for C7's amended claim at a concrete two-pair DQ-enabled run. -/
theorem c7_witness :
    (main_events 2 true).count RunEvent.insert_run_metadata = 1 ∧
    (∃ front,
      main_events 2 true =
        front ++ [RunEvent.insert_run_metadata, RunEvent.write_json_export] ∧
      ∀ e ∈ front, e ≠ RunEvent.insert_run_metadata) :=
  ⟨(c7_amended_metadata_order 2 true).1,
   (c7_amended_metadata_order 2 true).2 (by decide)⟩

/-- C8: a malformed configuration (non-positive bin size, negative fill/stale
thresholds, non-positive batch size, non-positive worker count, or
non-positive outlier threshold) makes `main` exit with a fatal error, so no
schema access, discovery, binning or output write happens (its trace is never
produced). -/
theorem c8_config_validation (a : MainArgs)
    (h : a.bin_seconds ≤ 0 ∨ a.max_forward_fill_s < 0 ∨ a.stale_after_s < 0 ∨
      a.insert_batch_size ≤ 0 ∨ a.workers ≤ 0 ∨ a.dq_outlier_threshold_pct ≤ 0) :
    ∃ msg, run_main a = Except.error msg := by
  unfold run_main
  split_ifs with h1 h2 h3 h4 h5 h6 h7 h8
  · exact ⟨_, rfl⟩
  · exact ⟨_, rfl⟩
  · exact ⟨_, rfl⟩
  · exact ⟨_, rfl⟩
  · exact ⟨_, rfl⟩
  · exact ⟨_, rfl⟩
  · exact ⟨_, rfl⟩
  · exact ⟨_, rfl⟩
  · rcases h with h | h | h | h | h | h
    · exact absurd h h1
    · exact absurd h h2
    · exact absurd h h3
    · exact absurd h h4
    · exact absurd h h5
    · exact absurd h h7

/-- Witness for C8: a configuration with `bin_seconds = 0` is rejected. -/
theorem c8_witness :
    ((0 : Int) ≤ 0 ∨ (300 : Int) < 0 ∨ (90 : Int) < 0 ∨ (5000 : Int) ≤ 0 ∨
      (1 : Int) ≤ 0 ∨ ((1 : ℚ)/5) ≤ 0) ∧
    ∃ msg,
      run_main { bin_seconds := 0, max_forward_fill_s := 300, stale_after_s := 90,
                 insert_batch_size := 5000, workers := 1, worker_queue_size := 128,
                 dq_outlier_threshold_pct := 1/5, input_db_exists := true,
                 enable_dq := true, pairCount := 3 } = Except.error msg :=
  ⟨Or.inl (by norm_num),
   c8_config_validation _ (Or.inl (by norm_num))⟩

/-- C1: density — under a positive bin size, an epoch-sorted stream and a
profile range covering every parsed tick, the emitted bucket epochs are
exactly the arithmetic progression from `floor_epoch(min_epoch)` to
`floor_epoch(max_epoch)` in steps of `bin_seconds`, with no gaps and no
duplicates. -/
theorem c1_density (cfg : Config) (profile : PairProfile) (ticks : List Tick)
    (hb : 0 < cfg.bin_seconds)
    (hsorted : (parsedTicks ticks).Pairwise ptickLE)
    (hlo : ∀ t ∈ parsedTicks ticks, profile.min_epoch_s ≤ t.ts_epoch_s)
    (hhi : ∀ t ∈ parsedTicks ticks, t.ts_epoch_s ≤ profile.max_epoch_s)
    (hmm1 : profile.min_epoch_s ≤ profile.max_epoch_s) :
    ((process_pair cfg profile ticks).2).map BinRow.bucket_epoch_s =
      progression (floor_epoch profile.min_epoch_s cfg.bin_seconds) cfg.bin_seconds
        (((floor_epoch profile.max_epoch_s cfg.bin_seconds -
            floor_epoch profile.min_epoch_s cfg.bin_seconds).fdiv cfg.bin_seconds).toNat + 1) ∧
    (((process_pair cfg profile ticks).2).map BinRow.bucket_epoch_s).Nodup := by
  have hmap : ((process_pair cfg profile ticks).2).map BinRow.bucket_epoch_s =
      progression (floor_epoch profile.min_epoch_s cfg.bin_seconds) cfg.bin_seconds
        (((floor_epoch profile.max_epoch_s cfg.bin_seconds -
            floor_epoch profile.min_epoch_s cfg.bin_seconds).fdiv cfg.bin_seconds).toNat + 1) := by
    rw [process_pair_rows_eq cfg profile ticks hb hsorted hlo hhi hmm1, List.map_map]
    have hcomp : BinRow.bucket_epoch_s ∘ refRow cfg (parsedTicks ticks) = id :=
      funext (refRow_bucket cfg (parsedTicks ticks))
    rw [hcomp, List.map_id]
  refine ⟨hmap, ?_⟩
  rw [hmap]
  exact progression_nodup _ _ hb.ne' _

/-- Witness for C1 on the small example run: buckets 0, 60, 120, 180. -/
theorem c1_witness :
    ((process_pair exCfg exProfile exTicks).2).map BinRow.bucket_epoch_s =
      [0, 60, 120, 180] ∧
    (((process_pair exCfg exProfile exTicks).2).map BinRow.bucket_epoch_s).Nodup := by
  have h := c1_density exCfg exProfile exTicks (by decide) (by decide) (by decide)
    (by decide) (by decide)
  exact ⟨by rw [h.1]; decide, h.2⟩

/-- C2: observed rule — a bucket containing at least one tick is emitted with
the last tick's effective price (stream order, i.e. `(observed_at, id)`
order), `fill_method = observed`, `age_seconds = 0`, `is_stale = 0`, and the
source-timestamp columns of that tick; and `_finalize_current_bin` updates
`last_known_*` to the bucket's last tick. -/
theorem c2_observed_rule (cfg : Config) (profile : PairProfile) (ticks : List Tick)
    (hb : 0 < cfg.bin_seconds)
    (hsorted : (parsedTicks ticks).Pairwise ptickLE)
    (hlo : ∀ t ∈ parsedTicks ticks, profile.min_epoch_s ≤ t.ts_epoch_s)
    (hhi : ∀ t ∈ parsedTicks ticks, t.ts_epoch_s ≤ profile.max_epoch_s)
    (hmm1 : profile.min_epoch_s ≤ profile.max_epoch_s) :
    (∀ r ∈ (process_pair cfg profile ticks).2, ∀ t,
      (ticksInBucket cfg (parsedTicks ticks) r.bucket_epoch_s).getLast? = some t →
      r.price = some t.effective_price ∧ r.fill_method = "observed" ∧
      r.age_seconds = some 0 ∧ r.is_stale = 0 ∧ r.is_missing = 0 ∧
      r.source_ingestion_epoch_s = some t.ts_epoch_s ∧
      r.source_ingestion_ts_utc = some t.ingestion_ts_utc ∧
      r.tick_count_in_bin =
        (ticksInBucket cfg (parsedTicks ticks) r.bucket_epoch_s).length) ∧
    (∀ (st : PairState) (ne : Option Int) (np : Option ℚ) (pr : ℚ) (ep : Int),
      0 < st.current_bin_tick_count →
      st.current_bin_last_price = some pr →
      st.current_bin_last_ts_epoch_s = some ep →
      (finalize_current_bin cfg st ne np).last_known_price = some pr ∧
      (finalize_current_bin cfg st ne np).last_known_ts_epoch_s = some ep ∧
      (finalize_current_bin cfg st ne np).last_known_ts_utc =
        st.current_bin_last_ts_utc) := by
  constructor
  · intro r hr t ht
    obtain ⟨b1, rfl, hbb⟩ := mem_rows_refRow cfg profile ticks hb hsorted hlo hhi hmm1 r hr
    rw [hbb] at ht ⊢
    simp [refRow, ht]
  · intro st ne np pr ep h1 h2 h3
    obtain ⟨cur, cnt, cbp, cbu, cbe, lkp, lku, lke, rs, bt, bo, bf, bi, bm⟩ := st
    dsimp only at h1 h2 h3 ⊢
    obtain ⟨k, rfl⟩ : ∃ k, cnt = k + 1 := ⟨cnt - 1, by omega⟩
    subst h2; subst h3
    simp [finalize_current_bin]

/-- Witness for C2: the bucket-0 row of the small example run carries the
price of its (only) tick. -/
theorem c2_witness :
    (exRow0 ∈ (process_pair exCfg exProfile exTicks).2) ∧
    ((ticksInBucket exCfg (parsedTicks exTicks) exRow0.bucket_epoch_s).getLast? =
      some (⟨"a", 0, 100⟩ : PTick)) ∧
    exRow0.price = some (⟨"a", 0, 100⟩ : PTick).effective_price ∧
    exRow0.fill_method = "observed" :=
  ⟨by decide, by decide,
   ((c2_observed_rule exCfg exProfile exTicks (by decide) (by decide) (by decide)
       (by decide) (by decide)).1 exRow0 (by decide) (⟨"a", 0, 100⟩ : PTick)
       (by decide)).1,
   ((c2_observed_rule exCfg exProfile exTicks (by decide) (by decide) (by decide)
       (by decide) (by decide)).1 exRow0 (by decide) (⟨"a", 0, 100⟩ : PTick)
       (by decide)).2.1⟩

/-- C3: forward-fill boundary — in mode `forward_fill`, an empty bucket with a
last-known tick of epoch `lk` is forward-filled exactly when
`bucket_epoch - lk ≤ max_forward_fill_s` (the boundary itself is fillable),
with the last-known price, that age and `is_stale = (age > stale_after_s)`;
beyond the boundary the bucket is emitted as missing. -/
theorem c3_forward_fill_boundary (cfg : Config) (profile : PairProfile)
    (ticks : List Tick)
    (hb : 0 < cfg.bin_seconds)
    (hsorted : (parsedTicks ticks).Pairwise ptickLE)
    (hlo : ∀ t ∈ parsedTicks ticks, profile.min_epoch_s ≤ t.ts_epoch_s)
    (hhi : ∀ t ∈ parsedTicks ticks, t.ts_epoch_s ≤ profile.max_epoch_s)
    (hmm1 : profile.min_epoch_s ≤ profile.max_epoch_s)
    (hmode : cfg.fill_method_mode = "forward_fill") :
    ∀ r ∈ (process_pair cfg profile ticks).2,
      ticksInBucket cfg (parsedTicks ticks) r.bucket_epoch_s = [] →
      ∀ lk, lastTickBefore cfg (parsedTicks ticks) r.bucket_epoch_s = some lk →
      ((((r.bucket_epoch_s - lk.ts_epoch_s : Int) : ℚ) ≤ (cfg.max_forward_fill_s : ℚ) →
        r.price = some lk.effective_price ∧ r.fill_method = "forward_fill" ∧
        r.age_seconds = some ((r.bucket_epoch_s - lk.ts_epoch_s : Int) : ℚ) ∧
        r.is_stale = (if (cfg.stale_after_s : ℚ) <
            ((r.bucket_epoch_s - lk.ts_epoch_s : Int) : ℚ) then 1 else 0) ∧
        r.is_missing = 0) ∧
      (¬ (((r.bucket_epoch_s - lk.ts_epoch_s : Int) : ℚ) ≤ (cfg.max_forward_fill_s : ℚ)) →
        r.fill_method = "missing" ∧ r.price = none ∧ r.is_missing = 1)) := by
  intro r hr hempty lk hlk
  obtain ⟨b1, rfl, hbb⟩ := mem_rows_refRow cfg profile ticks hb hsorted hlo hhi hmm1 r hr
  rw [hbb] at hempty hlk ⊢
  rcases hnt : nextTickAfter cfg (parsedTicks ticks) b1 with _ | nt
  · simp only [refRow, hempty, List.getLast?_nil, hlk, hnt]
    constructor
    · intro hage
      rw [if_pos hage]
      exact ⟨rfl, rfl, rfl, rfl, rfl⟩
    · intro hage
      rw [if_neg hage]
      exact ⟨rfl, rfl, rfl⟩
  · simp only [refRow, hempty, List.getLast?_nil, hlk, hnt]
    have hnotint : ¬ (cfg.fill_method_mode = "interpolation" ∧
        ((b1 - lk.ts_epoch_s : Int) : ℚ) ≤ (cfg.max_forward_fill_s : ℚ) ∧
        b1 < nt.ts_epoch_s ∧ lk.ts_epoch_s < nt.ts_epoch_s ∧
        ((nt.ts_epoch_s - b1 : Int) : ℚ) ≤ (cfg.max_forward_fill_s : ℚ)) := by
      intro hc
      rw [hmode] at hc
      exact absurd hc.1 (by decide)
    rw [if_neg hnotint]
    constructor
    · intro hage
      rw [if_pos hage]
      exact ⟨rfl, rfl, rfl, rfl, rfl⟩
    · intro hage
      rw [if_neg hage]
      exact ⟨rfl, rfl, rfl⟩

/-- Witness for C3 on the boundary example: age 241 ≤ 300 forward-fills
(bucket 300), age 301 > 300 yields a missing bin (bucket 360). -/
theorem c3_witness :
    (exRowF1 ∈ (process_pair exCfgF exProfileF exTicksF).2 ∧
      exRowF1.fill_method = "forward_fill" ∧ exRowF1.price = some 10) ∧
    (exRowF2 ∈ (process_pair exCfgF exProfileF exTicksF).2 ∧
      exRowF2.fill_method = "missing" ∧ exRowF2.price = none) := by
  have h := c3_forward_fill_boundary exCfgF exProfileF exTicksF (by decide) (by decide)
    (by decide) (by decide) (by decide) rfl
  refine ⟨⟨by decide, ?_, ?_⟩, ⟨by decide, ?_, ?_⟩⟩
  · exact ((h exRowF1 (by decide) (by decide) (⟨"a", 59, 10⟩ : PTick) (by decide)).1
      (by decide)).2.1
  · exact ((h exRowF1 (by decide) (by decide) (⟨"a", 59, 10⟩ : PTick) (by decide)).1
      (by decide)).1
  · exact ((h exRowF2 (by decide) (by decide) (⟨"a", 59, 10⟩ : PTick) (by decide)).2
      (by decide)).1
  · exact ((h exRowF2 (by decide) (by decide) (⟨"a", 59, 10⟩ : PTick) (by decide)).2
      (by decide)).2.1

/-- C4 counterexample: the claim's trigger condition for interpolation is
false on the code in two ways.  Run one (`exCfg`/`exTicks`): bucket 120 is
empty, has a last-known tick at epoch 0, and a future tick whose *bucket*
epoch (180) is within `max_forward_fill_s = 60` of the bucket and whose epoch
is after the last-known epoch — yet the emitted bin is `missing`, because the
code additionally requires the last-known age (120) to be within
`max_forward_fill_s`.  Run two (`exCfgY`/`exTicksY`): bucket 60 is empty with
last-known age 60 ≤ 300, and the future tick's *bucket* epoch (360) is within
300 of the bucket — yet the bin is `forward_fill`, not interpolation, because
the code compares the tick's raw epoch (361 − 60 = 301 > 300), not its bucket
epoch. -/
theorem c4_counterexample :
    (ticksInBucket exCfg (parsedTicks exTicks) 120 = [] ∧
      (lastTickBefore exCfg (parsedTicks exTicks) 120).map PTick.ts_epoch_s = some 0 ∧
      (∃ t ∈ parsedTicks exTicks,
        bucketOf exCfg t - 120 ≤ exCfg.max_forward_fill_s ∧ 0 < t.ts_epoch_s) ∧
      (∀ r ∈ (process_pair exCfg exProfile exTicks).2,
        r.bucket_epoch_s = 120 → r.fill_method = "missing")) ∧
    (ticksInBucket exCfgY (parsedTicks exTicksY) 60 = [] ∧
      (lastTickBefore exCfgY (parsedTicks exTicksY) 60).map PTick.ts_epoch_s = some 0 ∧
      (∃ t ∈ parsedTicks exTicksY,
        bucketOf exCfgY t - 60 ≤ exCfgY.max_forward_fill_s ∧ 0 < t.ts_epoch_s) ∧
      (∀ r ∈ (process_pair exCfgY exProfileY exTicksY).2,
        r.bucket_epoch_s = 60 → r.fill_method = "forward_fill")) := by
  decide

/-- C4 amended: in mode `interpolation`, an empty bucket with a last-known
tick is interpolated exactly under the code's conditions — the last-known age
is within `max_forward_fill_s`, and a future tick exists whose *raw epoch*
(not bucket epoch) is after the bucket epoch, after the last-known epoch, and
within `max_forward_fill_s` of the bucket epoch; the emitted bin then carries
the linearly interpolated price, `age_seconds = min(distance to last-known,
distance to future tick)`, `is_stale = (age_seconds > stale_after_s)`, NULL
source-timestamp columns, and `last_known_*` is not updated by the
interpolated value. -/
theorem c4_interpolation_amended (cfg : Config) (profile : PairProfile)
    (ticks : List Tick)
    (hb : 0 < cfg.bin_seconds)
    (hsorted : (parsedTicks ticks).Pairwise ptickLE)
    (hlo : ∀ t ∈ parsedTicks ticks, profile.min_epoch_s ≤ t.ts_epoch_s)
    (hhi : ∀ t ∈ parsedTicks ticks, t.ts_epoch_s ≤ profile.max_epoch_s)
    (hmm1 : profile.min_epoch_s ≤ profile.max_epoch_s)
    (hmode : cfg.fill_method_mode = "interpolation") :
    (∀ r ∈ (process_pair cfg profile ticks).2,
      ticksInBucket cfg (parsedTicks ticks) r.bucket_epoch_s = [] →
      ∀ lk, lastTickBefore cfg (parsedTicks ticks) r.bucket_epoch_s = some lk →
      ∀ nt, nextTickAfter cfg (parsedTicks ticks) r.bucket_epoch_s = some nt →
      ((r.bucket_epoch_s - lk.ts_epoch_s : Int) : ℚ) ≤ (cfg.max_forward_fill_s : ℚ) →
      r.bucket_epoch_s < nt.ts_epoch_s →
      lk.ts_epoch_s < nt.ts_epoch_s →
      ((nt.ts_epoch_s - r.bucket_epoch_s : Int) : ℚ) ≤ (cfg.max_forward_fill_s : ℚ) →
      r.price = some (lk.effective_price +
        (nt.effective_price - lk.effective_price) *
          (((r.bucket_epoch_s - lk.ts_epoch_s : Int) : ℚ) /
            ((nt.ts_epoch_s - lk.ts_epoch_s : Int) : ℚ))) ∧
      r.fill_method = "interpolation" ∧
      r.age_seconds = some (min ((r.bucket_epoch_s - lk.ts_epoch_s : Int) : ℚ)
        ((nt.ts_epoch_s - r.bucket_epoch_s : Int) : ℚ)) ∧
      r.is_stale = (if (cfg.stale_after_s : ℚ) <
          min ((r.bucket_epoch_s - lk.ts_epoch_s : Int) : ℚ)
            ((nt.ts_epoch_s - r.bucket_epoch_s : Int) : ℚ) then 1 else 0) ∧
      r.is_missing = 0 ∧ r.source_ingestion_epoch_s = none ∧
      r.source_ingestion_ts_utc = none) ∧
    (∀ (st : PairState) (ne : Option Int) (np : Option ℚ),
      st.current_bin_tick_count = 0 →
      (finalize_current_bin cfg st ne np).last_known_price = st.last_known_price ∧
      (finalize_current_bin cfg st ne np).last_known_ts_epoch_s =
        st.last_known_ts_epoch_s ∧
      (finalize_current_bin cfg st ne np).last_known_ts_utc = st.last_known_ts_utc) := by
  constructor
  · intro r hr hempty lk hlk nt hnt hage1 hgt1 hgt2 hage2
    obtain ⟨b1, rfl, hbb⟩ := mem_rows_refRow cfg profile ticks hb hsorted hlo hhi hmm1 r hr
    rw [hbb] at hempty hlk hnt hage1 hgt1 hage2 ⊢
    simp only [refRow, hempty, List.getLast?_nil, hlk, hnt]
    have hc : cfg.fill_method_mode = "interpolation" ∧
        ((b1 - lk.ts_epoch_s : Int) : ℚ) ≤ (cfg.max_forward_fill_s : ℚ) ∧
        b1 < nt.ts_epoch_s ∧ lk.ts_epoch_s < nt.ts_epoch_s ∧
        ((nt.ts_epoch_s - b1 : Int) : ℚ) ≤ (cfg.max_forward_fill_s : ℚ) :=
      ⟨hmode, hage1, hgt1, hgt2, hage2⟩
    rw [if_pos hc]
    exact ⟨rfl, rfl, rfl, rfl, rfl, rfl, rfl⟩
  · intro st ne np h0
    obtain ⟨cur, cnt, cbp, cbu, cbe, lkp, lku, lke, rs, bt, bo, bf, bi, bm⟩ := st
    dsimp only at h0 ⊢
    subst h0
    rcases lkp with _ | lp <;> rcases lke with _ | lq <;>
      rcases ne with _ | a1 <;> rcases np with _ | q1 <;>
      simp only [finalize_current_bin] <;>
      (try split_ifs) <;> simp

/-- Witness for C4's amended claim on the spec interpolation example:
bucket 400 interpolates to price 140. -/
theorem c4_witness :
    (exRowZ ∈ (process_pair exCfgZ exProfileZ exTicksZ).2) ∧
    exRowZ.price = some 140 ∧
    exRowZ.fill_method = "interpolation" ∧
    exRowZ.age_seconds = some (min ((exRowZ.bucket_epoch_s -
        (⟨"a", 0, 100⟩ : PTick).ts_epoch_s : Int) : ℚ)
      (((⟨"b", 1000, 200⟩ : PTick).ts_epoch_s - exRowZ.bucket_epoch_s : Int) : ℚ)) := by
  have happ := (c4_interpolation_amended exCfgZ exProfileZ exTicksZ (by decide) (by decide)
    (by decide) (by decide) (by decide) rfl).1
  have hrr : refRow exCfgZ (parsedTicks exTicksZ) 400 = exRowZ := by
    have hempty : ticksInBucket exCfgZ (parsedTicks exTicksZ) 400 = [] := by decide
    have hlk : lastTickBefore exCfgZ (parsedTicks exTicksZ) 400 =
        some (⟨"a", 0, 100⟩ : PTick) := by decide
    have hnt : nextTickAfter exCfgZ (parsedTicks exTicksZ) 400 =
        some (⟨"b", 1000, 200⟩ : PTick) := by decide
    simp only [refRow, hempty, List.getLast?_nil, hlk, hnt]
    rw [if_pos ⟨rfl, by decide, by decide, by decide, by decide⟩]
    simp only [exRowZ, BinRow.mk.injEq]
    norm_num [exCfgZ]
  have hmem : exRowZ ∈ (process_pair exCfgZ exProfileZ exTicksZ).2 := by
    rw [process_pair_rows_eq exCfgZ exProfileZ exTicksZ (by decide) (by decide)
      (by decide) (by decide) (by decide), ← hrr]
    exact List.mem_map_of_mem _ (by decide)
  refine ⟨hmem, rfl, ?_, ?_⟩
  · exact (happ exRowZ hmem (by decide) (⟨"a", 0, 100⟩ : PTick) (by decide)
      (⟨"b", 1000, 200⟩ : PTick) (by decide) (by decide) (by decide) (by decide)
      (by decide)).2.1
  · exact (happ exRowZ hmem (by decide) (⟨"a", 0, 100⟩ : PTick) (by decide)
      (⟨"b", 1000, 200⟩ : PTick) (by decide) (by decide) (by decide) (by decide)
      (by decide)).2.2.1

end CDWH
